import Mathlib

/-!
# `CSolid` of eyden-tracer-06 (`src/Solid.h`)

A shallow embedding of the class `CSolid`: the constructor that parses an OBJ
file, `transform`, the accessors and the two `add` overloads.

Conventions of the embedding.

* Scalars (`float` in the source) are the elements of a type `F`. The parser only
  needs `0`, `1` and subtraction on `F`; the theorems about `transform` take `F`
  to be a commutative ring, so they speak about exact arithmetic and say nothing
  about binary32 rounding.
* `ptr_prim_t` is a reference-counted pointer to a primitive. Primitives live in
  a `Heap`, a list of cells, and a handle is the index of a cell. Two equal
  handles are the same primitive; `pPrim->transform(T)` rewrites the cell. The
  list `m_vpPrims` of a solid is a list of handles: `add` appends to it without
  looking at what it holds, so one handle can be listed more than once, and one
  primitive can be listed by several solids. Where the identity of the solids
  matters (`add(pSolid)`), the solids of the program are a list in a `World` and a
  `std::shared_ptr<CSolid>` is an index of it.
* A text stream is the unread text together with its `eofbit` and `failbit`.
* An execution that reaches undefined behaviour (the read of an `int` that was
  never assigned, a `%d` conversion that does not fit an `int`, a `std::vector`
  subscript that is out of range) has no result: the functions that can reach
  it return `Option`, `none` being undefined behaviour.
* The diagnostic output on `std::cout` is not part of the embedding, and neither
  is the counter `nFaces`, which the constructor only increments.
-/

namespace EydenTracer

/-! ## Vectors and matrices -/

/-- Three-component vector, `cv::Vec<T, 3>`: `x`, `y`, `z` are `val[0]`, `val[1]`,
`val[2]`. -/
structure Vec3 (α : Type) where
  x : α
  y : α
  z : α
deriving DecidableEq, Repr

/-- Two-component vector, `cv::Vec<T, 2>`: `x`, `y` are `val[0]`, `val[1]`. -/
structure Vec2 (α : Type) where
  x : α
  y : α
deriving DecidableEq, Repr

/-- The source type `Vec3f`, over the scalars `F`. -/
abbrev Vec3f (F : Type) := Vec3 F

/-- The source type `Vec2f`, over the scalars `F`. -/
abbrev Vec2f (F : Type) := Vec2 F

/-- The source type `Vec3i`. -/
abbrev Vec3i := Vec3 Int

/-- The component `v.val[i]`. -/
def Vec3.val {α : Type} (v : Vec3 α) (i : Fin 3) : α :=
  match i with
  | 0 => v.x
  | 1 => v.y
  | 2 => v.z

/-- The vector after the assignment `v.val[i] = a`. -/
def Vec3.setVal {α : Type} (v : Vec3 α) (i : Fin 3) (a : α) : Vec3 α :=
  match i with
  | 0 => { v with x := a }
  | 1 => { v with y := a }
  | 2 => { v with z := a }

/-- Component-wise sum, `cv::Vec::operator+`. -/
def Vec3.add {α : Type} [Add α] (a b : Vec3 α) : Vec3 α :=
  ⟨a.x + b.x, a.y + b.y, a.z + b.z⟩

/-- Component-wise negation, the unary `cv::Vec::operator-`. -/
def Vec3.neg {α : Type} [Neg α] (a : Vec3 α) : Vec3 α :=
  ⟨-a.x, -a.y, -a.z⟩

instance {α : Type} [Add α] : Add (Vec3 α) := ⟨Vec3.add⟩

instance {α : Type} [Neg α] : Neg (Vec3 α) := ⟨Vec3.neg⟩

/-- The value-initialised vector `Vec3f v;` (OpenCV zeroes every component). -/
def Vec3.zero {α : Type} [Zero α] : Vec3 α := ⟨0, 0, 0⟩

/-- The 4x4 matrices `transform` receives: `t.at<float>(i, j)` is `t i j`, and
`*` is the matrix product. -/
abbrev Mat (F : Type) := Matrix (Fin 4) (Fin 4) F

/-- The translation part of a matrix: column 3, rows 0 to 2. -/
def Mat.translation {F : Type} (t : Mat F) : Vec3f F :=
  ⟨t 0 3, t 1 3, t 2 3⟩

/-- An affine matrix: its last row is `0 0 0 1`. -/
def IsAffine {F : Type} [Zero F] [One F] (t : Mat F) : Prop :=
  t 3 0 = 0 ∧ t 3 1 = 0 ∧ t 3 2 = 0 ∧ t 3 3 = 1

/-- Modelled from the spec: `CTransform().translate(v).get()` of `Transform.h`,
which is not among the sources; the spec calls it "translate-by-(v)": the matrix
that adds `v` to a point, the identity with `v` in rows 0 to 2 of column 3. -/
def CTransform.translate {F : Type} [Zero F] [One F] (v : Vec3f F) : Mat F :=
  fun i j =>
    if i = j then 1
    else if j = 3 then (if i = 0 then v.x else if i = 1 then v.y else v.z)
    else 0

/-- Modelled from the spec: the image of a point under an affine matrix, the first
three components of `t * (x, y, z, 1)`. -/
def CTransform.point {F : Type} [Add F] [Mul F] (t : Mat F) (p : Vec3f F) : Vec3f F :=
  ⟨t 0 0 * p.x + t 0 1 * p.y + t 0 2 * p.z + t 0 3,
   t 1 0 * p.x + t 1 1 * p.y + t 1 2 * p.z + t 1 3,
   t 2 0 * p.x + t 2 1 * p.y + t 2 2 * p.z + t 2 3⟩

/-! ## Primitives and the heap -/

/-- Modelled from the spec: the triangle primitive of `PrimTriangle.h`, which is not
among the sources. The spec has it "constructed from three resolved
position/texture/normal triples plus a shading behavior handle"; the fields are
the arguments of the constructor call in `Solid.h`, in its order. -/
structure CPrimTriangle (F Sh : Type) where
  pShader : Sh
  a : Vec3f F
  b : Vec3f F
  c : Vec3f F
  ta : Vec2f F
  tb : Vec2f F
  tc : Vec2f F
  na : Vec3f F
  nb : Vec3f F
  nc : Vec3f F
deriving DecidableEq, Repr

/-- Modelled from the spec: the in-place `transform(matrix)` of the triangle
primitive (`PrimTriangle.h` is not among the sources). The spec only says that it
applies the affine matrix to the primitive; the model moves the three vertex
positions as points and leaves the shader, the texture coordinates and the
normals as they are. -/
def CPrimTriangle.transform {F Sh : Type} [Add F] [Mul F] (t : Mat F)
    (p : CPrimTriangle F Sh) : CPrimTriangle F Sh :=
  { p with a := CTransform.point t p.a, b := CTransform.point t p.b,
           c := CTransform.point t p.c }

/-- A point of a triangle: the combination of its three vertices with the weights
`α`, `β`, `γ`, which are barycentric coordinates when their sum is one. -/
def CPrimTriangle.pointAt {F Sh : Type} [Add F] [Mul F] (p : CPrimTriangle F Sh)
    (α β γ : F) : Vec3f F :=
  ⟨α * p.a.x + β * p.b.x + γ * p.c.x,
   α * p.a.y + β * p.b.y + γ * p.c.y,
   α * p.a.z + β * p.b.z + γ * p.c.z⟩

/-- The store of primitives: a handle (`ptr_prim_t`) is the index of a cell. -/
abbrev Heap (P : Type) := List P

/-- The result of `std::make_shared<P>(...)`: the store with one more cell, and the
handle of the new cell. -/
def Heap.alloc {P : Type} (heap : Heap P) (p : P) : Heap P × Nat :=
  (heap ++ [p], heap.length)

/-- The store after `pPrim->transform(t)`, `ptransform` being the primitive's own
(virtual) `transform`. A handle that a solid holds always has its cell; on an index
without a cell the store is returned as it is. -/
def Heap.transformAt {F P : Type} (ptransform : Mat F → P → P) (t : Mat F)
    (heap : Heap P) (pPrim : Nat) : Heap P :=
  heap.modify (ptransform t) pPrim

/-! ## The solid -/

/-- The data members of `CSolid`. -/
structure CSolid (F : Type) where
  m_pivot : Vec3f F
  m_vpPrims : List Nat
deriving DecidableEq, Repr

/-- The members as every constructor finds them before its body runs when it names
no initialiser: `m_pivot` value-initialised by OpenCV, `m_vpPrims` empty. -/
def CSolid.default {F : Type} [Zero F] : CSolid F :=
  ⟨Vec3.zero, []⟩

/-- The protected constructor `CSolid(Vec3f org) : m_pivot(org) {}`. -/
def CSolid.mk_org {F : Type} (org : Vec3f F) : CSolid F :=
  ⟨org, []⟩

/-- The source method `add(const ptr_prim_t pPrim)`. -/
def CSolid.add {F : Type} (s : CSolid F) (pPrim : Nat) : CSolid F :=
  { s with m_vpPrims := s.m_vpPrims ++ [pPrim] }

/-- The source method `add(const std::shared_ptr<CSolid> pSolid)`: one `push_back`
for every primitive of `pSolid->getPrims()`, in its order. -/
def CSolid.addSolid {F : Type} (s : CSolid F) (pSolid : CSolid F) : CSolid F :=
  pSolid.m_vpPrims.foldl (fun acc pPrim => { acc with m_vpPrims := acc.m_vpPrims ++ [pPrim] }) s

/-- The source method `getPrims`. -/
def CSolid.getPrims {F : Type} (s : CSolid F) : List Nat := s.m_vpPrims

/-- The source method `setPivot`. -/
def CSolid.setPivot {F : Type} (s : CSolid F) (pivot : Vec3f F) : CSolid F :=
  { s with m_pivot := pivot }

/-- The source method `getPivot`. -/
def CSolid.getPivot {F : Type} (s : CSolid F) : Vec3f F := s.m_pivot

/-- One call of `add` on a solid under construction: `add(pPrim)` with a handle of a
primitive, or `add(pSolid)` with another solid. -/
inductive AddCall (F : Type) where
  | prim (pPrim : Nat)
  | solid (pSolid : CSolid F)

/-- A sequence of calls of `add` on a solid, from the first to the last. -/
def CSolid.addCalls {F : Type} (s : CSolid F) : List (AddCall F) → CSolid F
  | [] => s
  | AddCall.prim pPrim :: calls => (s.add pPrim).addCalls calls
  | AddCall.solid pSolid :: calls => (s.addSolid pSolid).addCalls calls

/-- The objects of a program: the store of primitives and the solids, a
`std::shared_ptr<CSolid>` being the index of a solid. -/
structure World (F P : Type) where
  heap : Heap P
  solids : List (CSolid F)

/-- The call `solids[i]->add(pSolid)` where `pSolid` points to `solids[j]`. `none` is
undefined behaviour: a pointer to no solid, or a solid with primitives added to
itself, where `push_back` invalidates the iterators of the loop that reads the same
`std::vector`. -/
def World.addSolid {F P : Type} (w : World F P) (i j : Nat) : Option (World F P) :=
  match w.solids[i]?, w.solids[j]? with
  | some S, some A =>
    if i = j ∧ A.m_vpPrims ≠ [] then none
    else some { w with solids := w.solids.set i (S.addSolid A) }
  | _, _ => none

/-- One pass `for (auto& pPrim : m_vpPrims) pPrim->transform(t);` over the handles. -/
def transformAll {F P : Type} (ptransform : Mat F → P → P) (t : Mat F)
    (prims : List Nat) (heap : Heap P) : Heap P :=
  prims.foldl (Heap.transformAt ptransform t) heap

/-- The loop `for (int i = 0; i < 3; i++) m_pivot.val[i] += t.at<float>(i, 3);`. -/
def updatePivot {F : Type} [Add F] (t : Mat F) (pivot : Vec3f F) : Vec3f F :=
  (List.finRange 3).foldl (fun p i => p.setVal i (p.val i + t i.castSucc 3)) pivot

/-- The source method `transform(const Mat& t)`. `ptransform` is the `transform` of
the primitives, which the source reaches through a virtual call. -/
def CSolid.transform {F P : Type} [Ring F] (ptransform : Mat F → P → P) (t : Mat F)
    (s : CSolid F) (heap : Heap P) : CSolid F × Heap P :=
  let T1 : Mat F := CTransform.translate (-s.m_pivot)
  let T2 : Mat F := CTransform.translate s.m_pivot
  let heap1 := transformAll ptransform (t * T1) s.m_vpPrims heap
  let heap2 := transformAll ptransform T2 s.m_vpPrims heap1
  ({ s with m_pivot := updatePivot t s.m_pivot }, heap2)

/-- Modelled from the spec: what the spec tells of the `transform` of a primitive,
which is not among the sources: it "accumulates matrices incrementally", so that
two calls are "equivalent to applying" the product of their matrices. Stated for
the affine matrices the solid passes. -/
def Accumulates {F P : Type} [Ring F] (ptransform : Mat F → P → P) : Prop :=
  ∀ A B : Mat F, IsAffine A → IsAffine B →
    ∀ x : P, ptransform B (ptransform A x) = ptransform (B * A) x

/-- Modelled from the spec: the `transform` of a primitive with the identity matrix
changes nothing of the primitive. -/
def FixedByIdentity {F P : Type} [Ring F] (ptransform : Mat F → P → P) : Prop :=
  ∀ x : P, ptransform 1 x = x

/-! ## Text streams -/

/-- An input stream (`std::ifstream`, `std::stringstream`): the text not read yet
and two of the state bits. -/
structure IStream where
  buf : List Char
  eofbit : Bool
  failbit : Bool
deriving DecidableEq, Repr

/-- A stream just opened on a text: `std::stringstream ss(line)`. -/
def IStream.ofText (text : List Char) : IStream := ⟨text, false, false⟩

/-- The stream member `good()`. -/
def IStream.good (s : IStream) : Bool := !s.eofbit && !s.failbit

/-- The characters before the first `delim`, and the text after that `delim` when
there is one. -/
def splitDelim (delim : Char) : List Char → List Char × Option (List Char)
  | [] => ([], none)
  | c :: cs =>
    if c = delim then ([], some cs)
    else ((c :: (splitDelim delim cs).1), (splitDelim delim cs).2)

/-- The library call `std::getline(is, str, delim)`, giving the stream and `str`
after it. On a stream that is not good the sentry fails: `failbit` is set and `str`
is left alone. Otherwise `str` is erased and receives the characters up to the
delimiter, which is extracted and dropped; when the text ends first `eofbit` is set,
and `failbit` too when nothing was extracted. -/
def getline (is : IStream) (str : List Char) (delim : Char) : IStream × List Char :=
  if is.good then
    match splitDelim delim is.buf with
    | (s, some rest) => (⟨rest, false, false⟩, s)
    | (s, none) => (⟨[], true, s.isEmpty⟩, s)
  else ({ is with failbit := true }, str)

/-- The C function `isspace` in the "C" locale. -/
def isspace (c : Char) : Bool :=
  c = ' ' || c = '\t' || c = '\n' || c = '\x0b' || c = '\x0c' || c = '\r'

/-- The formatted extraction `is >> val` of a `float`, giving the stream and `val`
after it. `numGet` is the library's conversion of the text at the head of the
stream: the value it reads, if any, and the text it leaves. On a stream that is not
good, or that ends during the skip of white space, `val` is left alone; when the
conversion fails `val` becomes zero. -/
def extractFloat {F : Type} [Zero F] (numGet : List Char → Option F × List Char)
    (is : IStream) (val : F) : IStream × F :=
  if is.good then
    match is.buf.dropWhile isspace with
    | [] => (⟨[], true, true⟩, val)
    | c :: cs =>
      match numGet (c :: cs) with
      | (some x, rest) => (⟨rest, rest.isEmpty, false⟩, x)
      | (none, rest) => (⟨rest, rest.isEmpty, true⟩, 0)
  else ({ is with failbit := true }, val)

/-- The decimal digits at the head of a text, accumulated onto `acc`, and the text
after them. -/
def scanDigits : List Char → Nat → Nat × List Char
  | [], acc => (acc, [])
  | c :: cs, acc =>
    if c.isDigit then scanDigits cs (acc * 10 + (c.toNat - 48)) else (acc, c :: cs)

/-- An optional sign at the head of a text: whether it is `-`, and the text after
the sign. -/
def scanSign : List Char → Bool × List Char
  | [] => (false, [])
  | c :: cs =>
    if c = '-' then (true, cs) else if c = '+' then (false, cs) else (false, c :: cs)

/-- One `%d` directive of `sscanf`: white space is skipped, then an optional sign and
at least one decimal digit are read. `none` is a matching failure; otherwise the
number read and the text after it. -/
def scanInt (s : List Char) : Option (Int × List Char) :=
  match (scanSign (s.dropWhile isspace)).2 with
  | [] => none
  | c :: cs =>
    if c.isDigit then
      some (if (scanSign (s.dropWhile isspace)).1
              then -((scanDigits (c :: cs) 0).1 : Int)
              else ((scanDigits (c :: cs) 0).1 : Int),
            (scanDigits (c :: cs) 0).2)
    else none

/-- The values an `int` can hold. -/
def inIntRange (i : Int) : Bool := decide (-2147483648 ≤ i) && decide (i ≤ 2147483647)

/-- The call `sscanf(line.c_str(), "%d/%d/%d", &v, &t, &n)`, giving `v`, `t`, `n` after
it. An `int` that was never assigned is `none`. The conversions stop at the first
directive that does not match, and the variables of the directives not reached keep
what they held. The outer `none` is undefined behaviour: a number that does not fit
an `int`. -/
def sscanf (line : List Char) (v t n : Option Int) :
    Option (Option Int × Option Int × Option Int) :=
  match scanInt (line.takeWhile (fun c => c ≠ '\x00')) with
  | none => some (v, t, n)
  | some (a, r1) =>
    if inIntRange a then
      match r1 with
      | [] => some (some a, t, n)
      | c1 :: r2 =>
        if c1 = '/' then
          match scanInt r2 with
          | none => some (some a, t, n)
          | some (b, r3) =>
            if inIntRange b then
              match r3 with
              | [] => some (some a, some b, n)
              | c2 :: r4 =>
                if c2 = '/' then
                  match scanInt r4 with
                  | none => some (some a, some b, n)
                  | some (c, _) =>
                    if inIntRange c then some (some a, some b, some c) else none
                else some (some a, some b, n)
            else none
        else some (some a, t, n)
    else none

/-! ## The constructor that parses an OBJ file -/

/-- The element `v[i]` of a `std::vector` for an `int` index; `none` when the index
is out of range, which is undefined behaviour in the source. -/
def vectorAt {α : Type} (v : List α) (i : Int) : Option α :=
  if 0 ≤ i then v[i.toNat]? else none

/-- What the constructor holds while it reads the file: the three tables, the solid
under construction and the store of primitives. -/
structure ParseState (F Sh : Type) where
  vVertexes : List (Vec3f F)
  vNormals : List (Vec3f F)
  vTextures : List (Vec2f F)
  solid : CSolid F
  heap : Heap (CPrimTriangle F Sh)

/-- One turn of the loop over the three groups of an `f` line:
`getline(ss, line, ' '); sscanf(line.c_str(), "%d/%d/%d", &v, &t, &n);` and then the
reads of `v`, `t` and `n` for `V.val[i]`, `T.val[i]`, `N.val[i]`. The result is the
stream, `line` and the values of `v`, `t`, `n`; `none` when one of the three was never
assigned, or does not fit an `int`. -/
def readGroup (ss : IStream) (line : List Char) (v t n : Option Int) :
    Option (IStream × List Char × Int × Int × Int) :=
  match sscanf (getline ss line ' ').2 v t n with
  | some (some v1, some t1, some n1) =>
    some ((getline ss line ' ').1, (getline ss line ' ').2, v1, t1, n1)
  | _ => none

/-- The loop over the three groups of an `f` line: the index vectors `V`, `T`, `N`,
each entry one less than the number read. `ss` is the stream after the leading token
and `line` holds that token. -/
def faceIndices (ss : IStream) (line : List Char) : Option (Vec3i × Vec3i × Vec3i) :=
  match readGroup ss line none none none with
  | none => none
  | some (ss1, line1, v0, t0, n0) =>
    match readGroup ss1 line1 (some v0) (some t0) (some n0) with
    | none => none
    | some (ss2, line2, v1, t1, n1) =>
      match readGroup ss2 line2 (some v1) (some t1) (some n1) with
      | none => none
      | some (_, _, v2, t2, n2) =>
        some (⟨v0 - 1, v1 - 1, v2 - 1⟩, ⟨t0 - 1, t1 - 1, t2 - 1⟩, ⟨n0 - 1, n1 - 1, n2 - 1⟩)

/-- The three texts that the loop over the groups of an `f` line hands to `sscanf`,
one for each turn: what `line` holds after each of the three calls of `getline`. -/
def faceFields (ss : IStream) (line : List Char) : List Char × List Char × List Char :=
  ((getline ss line ' ').2,
   (getline (getline ss line ' ').1 (getline ss line ' ').2 ' ').2,
   (getline (getline (getline ss line ' ').1 (getline ss line ' ').2 ' ').1
      (getline (getline ss line ' ').1 (getline ss line ' ').2 ' ').2 ' ').2)

/-- The triangle an `f` line builds from the index vectors: nine table lookups. -/
def makeTriangle {F Sh : Type} (pShader : Sh) (st : ParseState F Sh) (V T N : Vec3i) :
    Option (CPrimTriangle F Sh) :=
  match vectorAt st.vVertexes V.x, vectorAt st.vVertexes V.y, vectorAt st.vVertexes V.z,
        vectorAt st.vTextures T.x, vectorAt st.vTextures T.y, vectorAt st.vTextures T.z,
        vectorAt st.vNormals N.x, vectorAt st.vNormals N.y, vectorAt st.vNormals N.z with
  | some a, some b, some c, some ta, some tb, some tc, some na, some nb, some nc =>
    some ⟨pShader, a, b, c, ta, tb, tc, na, nb, nc⟩
  | _, _, _, _, _, _, _, _, _ => none

/-- Three extractions `ss >> v.val[i]` into a vector that starts as zero. -/
def readVec3 {F : Type} [Zero F] (numGet : List Char → Option F × List Char)
    (ss : IStream) : Vec3f F :=
  let r0 := extractFloat numGet ss 0
  let r1 := extractFloat numGet r0.1 0
  let r2 := extractFloat numGet r1.1 0
  ⟨r0.2, r1.2, r2.2⟩

/-- Two extractions `ss >> vt.val[i]` into a vector that starts as zero. -/
def readVec2 {F : Type} [Zero F] (numGet : List Char → Option F × List Char)
    (ss : IStream) : Vec2f F :=
  let r0 := extractFloat numGet ss 0
  let r1 := extractFloat numGet r0.1 0
  ⟨r0.2, r1.2⟩

/-- The leading token of a line: `std::stringstream ss(line); getline(ss, line, ' ');`
gives the stream after the token and the token. -/
def leadingToken (text : List Char) : IStream × List Char :=
  getline (IStream.ofText text) text ' '

/-- The body of the loop of the constructor for one line of the file. `none` is
undefined behaviour. -/
def processLine {F Sh : Type} [Zero F] [One F] [Sub F]
    (numGet : List Char → Option F × List Char) (pShader : Sh)
    (st : ParseState F Sh) (text : List Char) : Option (ParseState F Sh) :=
  let ss := (leadingToken text).1
  let line := (leadingToken text).2
  if line = ['v'] then
    some { st with vVertexes := st.vVertexes ++ [readVec3 numGet ss] }
  else if line = ['v', 't'] then
    let vt := readVec2 numGet ss
    some { st with vTextures := st.vTextures ++ [⟨vt.x, 1 - vt.y⟩] }
  else if line = ['v', 'n'] then
    some { st with vNormals := st.vNormals ++ [readVec3 numGet ss] }
  else if line = ['f'] then
    match faceIndices ss line with
    | none => none
    | some (V, T, N) =>
      match makeTriangle pShader st V T N with
      | none => none
      | some tri =>
        some { st with solid := st.solid.add (st.heap.alloc tri).2,
                       heap := (st.heap.alloc tri).1 }
  else some st

/-- How a run of the constructor ends. -/
inductive Outcome (α : Type) where
  | done (a : α)
  | undefined
  | outOfFuel
deriving DecidableEq, Repr

/-- The loop `for (;;) { if (!getline(file, line)) break; ... }`, with a bound on the
number of turns; `CSolid.fromFile` gives it more turns than the file has characters,
and `parseLoop_eq` shows that it then never runs out. The body overwrites `line` with
the token and the groups of the line; what `line` holds at the end of a turn is never
read, since the next `getline` either replaces it or fails and ends the loop, so the
next turn is given the line as read. -/
def parseLoop {F Sh : Type} [Zero F] [One F] [Sub F]
    (numGet : List Char → Option F × List Char) (pShader : Sh) :
    Nat → IStream → List Char → ParseState F Sh → Outcome (ParseState F Sh)
  | 0, _, _, _ => Outcome.outOfFuel
  | fuel + 1, file, line, st =>
    if (getline file line '\n').1.failbit then Outcome.done st
    else
      match processLine numGet pShader st (getline file line '\n').2 with
      | none => Outcome.undefined
      | some st1 =>
        parseLoop numGet pShader fuel (getline file line '\n').1 (getline file line '\n').2 st1

/-- The end of a run whose loop was run to its end: `none` is undefined behaviour. -/
def Outcome.ofOption {α : Type} : Option α → Outcome α
  | some a => Outcome.done a
  | none => Outcome.undefined

/-- The state of the constructor when the loop starts: empty tables, the members of
the solid as they are before the body runs. -/
def ParseState.init {F Sh : Type} [Zero F] (heap : Heap (CPrimTriangle F Sh)) :
    ParseState F Sh :=
  ⟨[], [], [], CSolid.default, heap⟩

/-- The constructor `CSolid(ptr_shader_t pShader, const std::string& fileName)`. The
file system is the argument `file`: `none` when the file cannot be opened, else its
content. The result is the solid and the store of primitives. -/
def CSolid.fromFile {F Sh : Type} [Zero F] [One F] [Sub F]
    (numGet : List Char → Option F × List Char) (pShader : Sh)
    (file : Option (List Char)) (heap : Heap (CPrimTriangle F Sh)) :
    Outcome (CSolid F × Heap (CPrimTriangle F Sh)) :=
  match file with
  | some content =>
    match parseLoop numGet pShader (content.length + 1) (IStream.ofText content) []
            (ParseState.init heap) with
    | Outcome.done st => Outcome.done (st.solid, st.heap)
    | Outcome.undefined => Outcome.undefined
    | Outcome.outOfFuel => Outcome.outOfFuel
  | none => Outcome.done (CSolid.default, heap)

/-! ## A conversion of decimal text, for concrete files -/

/-- The digits after a decimal point, when the text starts with one: their value as
a natural number, how many they are, and the text after them. -/
def scanFraction : List Char → Nat × Nat × List Char
  | [] => (0, 0, [])
  | c :: cs =>
    if c = '.' then
      ((scanDigits cs 0).1, (cs.takeWhile Char.isDigit).length, (scanDigits cs 0).2)
    else (0, 0, c :: cs)

/-- An optional exponent `e` or `E`, sign, digits: the exponent (zero when there is
none) and the text after it; `none` when no digit follows the marker. -/
def scanExponent : List Char → Option (Int × List Char)
  | [] => some (0, [])
  | c :: cs =>
    if c = 'e' ∨ c = 'E' then
      match (scanSign cs).2 with
      | [] => none
      | d :: ds =>
        if d.isDigit then
          some (if (scanSign cs).1 then -((scanDigits (d :: ds) 0).1 : Int)
                  else ((scanDigits (d :: ds) 0).1 : Int),
                (scanDigits (d :: ds) 0).2)
        else none
    else some (0, c :: cs)

/-- A conversion `numGet` for the scalars `ℚ`: the text
`[sign] digits [. digits] [e [sign] digits]` is read as the rational number it
writes. It stands for the library's conversion to `float` without the rounding. -/
def readDecimal (s : List Char) : Option ℚ × List Char :=
  let sg := scanSign s
  let ip := scanDigits sg.2 0
  let ni := (sg.2.takeWhile Char.isDigit).length
  let fr := scanFraction ip.2
  if ni + fr.2.1 = 0 then (none, fr.2.2)
  else
    match scanExponent fr.2.2 with
    | none => (none, [])
    | some (e, rest) =>
      let m : ℚ := (ip.1 : ℚ) + (fr.1 : ℚ) / (10 : ℚ) ^ fr.2.1
      (some ((if sg.1 then -m else m) * (10 : ℚ) ^ e), rest)

/-! ## The file as a list of lines -/

/-- The lines of a text in the order the loop of the constructor reads them: the
text is cut at every `'\n'`, and an empty piece after the last `'\n'` is no line. -/
def fileLines : List Char → List (List Char)
  | [] => []
  | c :: cs =>
    if c = '\n' then [] :: fileLines cs
    else
      match fileLines cs with
      | [] => [[c]]
      | l :: ls => (c :: l) :: ls

/-- The body of the loop run over a list of lines, from the first to the last. -/
def parseLines {F Sh : Type} [Zero F] [One F] [Sub F]
    (numGet : List Char → Option F × List Char) (pShader : Sh) :
    ParseState F Sh → List (List Char) → Option (ParseState F Sh)
  | st, [] => some st
  | st, l :: ls =>
    match processLine numGet pShader st l with
    | none => none
    | some st1 => parseLines numGet pShader st1 ls

/-- The directive of a line as the constructor reads it: the text before the first
single space of the line (the whole line when it has none). For the leading token of
the line as written, its first white-space separated field, see `writtenDirective`. -/
def directive (text : List Char) : List Char := (leadingToken text).2

/-- The number of lines among some lines that the constructor takes for `f` lines. For
the number of `f` directives as written see `writtenCountFaces`. -/
def countFaces (lines : List (List Char)) : Nat :=
  (lines.filter (fun l => decide (directive l = ['f']))).length

/-- The position table of some lines: the entries of their `v` lines, in order. -/
def positionsOf {F : Type} [Zero F] (numGet : List Char → Option F × List Char)
    (lines : List (List Char)) : List (Vec3f F) :=
  (lines.filter (fun l => decide (directive l = ['v']))).map
    (fun l => readVec3 numGet (leadingToken l).1)

/-- The texture table of some lines: the entries of their `vt` lines, in order. -/
def texturesOf {F : Type} [Zero F] [One F] [Sub F]
    (numGet : List Char → Option F × List Char)
    (lines : List (List Char)) : List (Vec2f F) :=
  (lines.filter (fun l => decide (directive l = ['v', 't']))).map
    (fun l => ⟨(readVec2 numGet (leadingToken l).1).x,
               1 - (readVec2 numGet (leadingToken l).1).y⟩)

/-- The normal table of some lines: the entries of their `vn` lines, in order. -/
def normalsOf {F : Type} [Zero F] (numGet : List Char → Option F × List Char)
    (lines : List (List Char)) : List (Vec3f F) :=
  (lines.filter (fun l => decide (directive l = ['v', 'n']))).map
    (fun l => readVec3 numGet (leadingToken l).1)

/-- Every entry of an index vector is a valid 0-based index of a table of `n`
entries; the 1-based number written in the file is then between `1` and `n`. -/
def indexValid (n : Nat) (V : Vec3i) : Bool :=
  decide (0 ≤ V.x ∧ V.x < n) && decide (0 ≤ V.y ∧ V.y < n) && decide (0 ≤ V.z ∧ V.z < n)

/-- The constructor reads the three groups of an `f` line without meeting undefined
behaviour, and every index it reads is valid for tables of `nv` positions, `nt`
texture coordinates and `nn` normals. The line is cut as the constructor cuts it, at
single spaces, and read by `sscanf`: this is a property of what is read, not of what
is written. -/
def faceValid (nv nt nn : Nat) (text : List Char) : Bool :=
  match faceIndices (leadingToken text).1 (leadingToken text).2 with
  | none => false
  | some (V, T, N) => indexValid nv V && indexValid nt T && indexValid nn N

/-- For every line among `lines` whose token, cut by the constructor, is `f`, the
indices that the constructor reads are valid at that line, the tables holding `nv`,
`nt`, `nn` entries before the first of the lines. -/
def readsInRangeFrom (nv nt nn : Nat) : List (List Char) → Bool
  | [] => true
  | l :: ls =>
    if directive l = ['v'] then readsInRangeFrom (nv + 1) nt nn ls
    else if directive l = ['v', 't'] then readsInRangeFrom nv (nt + 1) nn ls
    else if directive l = ['v', 'n'] then readsInRangeFrom nv nt (nn + 1) ls
    else if directive l = ['f'] then faceValid nv nt nn l && readsInRangeFrom nv nt nn ls
    else readsInRangeFrom nv nt nn ls

/-- The constructor reads every `f` line of the file in range: each line that it takes
for an `f` line gives it, cut at single spaces and read by `sscanf`, nine indices that
are valid at that line. This is the condition under which the run of the constructor
is defined. It is a property of what the constructor reads and not of the text as it
is written: it holds of `f 1/1/1  2/1/1 3/1/1` under three positions, where the
constructor reads the groups `1/1/1`, `1/1/1`, `2/1/1`, and it fails of
`f  1/1/1 2/1/1 3/1/1`. The files whose written indices are valid are those of
`WrittenWellFormed`. -/
def ReadsInRange (content : List Char) : Prop :=
  readsInRangeFrom 0 0 0 (fileLines content) = true

instance (content : List Char) : Decidable (ReadsInRange content) := by
  unfold ReadsInRange
  infer_instance

/-! ## The written form of an `f` line -/

/-- A numeral: a non-empty text of decimal digits. -/
def IsNumeral (ds : List Char) : Prop := ds ≠ [] ∧ ∀ c ∈ ds, c.isDigit = true

instance (ds : List Char) : Decidable (IsNumeral ds) := by
  unfold IsNumeral
  infer_instance

/-- The number a numeral writes, most significant digit first. -/
def numeralValue (ds : List Char) : Nat :=
  Nat.ofDigits 10 ((ds.map (fun c => c.toNat - 48)).reverse)

/-- The text of one group of an `f` line: three numerals separated by `/`. -/
def groupText (p t n : List Char) : List Char := p ++ '/' :: (t ++ '/' :: n)

/-- The text `g` is a group `p/t/n` of an `f` line: three numerals separated by `/`
that write the numbers `p`, `t`, `n`, each of which fits an `int`. -/
def IsGroup (g : List Char) (p t n : Nat) : Prop :=
  ∃ dp dt dn : List Char, IsNumeral dp ∧ IsNumeral dt ∧ IsNumeral dn ∧
    g = groupText dp dt dn ∧ numeralValue dp = p ∧ numeralValue dt = t ∧
    numeralValue dn = n ∧ p ≤ 2147483647 ∧ t ≤ 2147483647 ∧ n ≤ 2147483647

/-- The line `f g1 g2 g3`: the token `f` and three groups, separated by single
spaces. -/
def faceText (g1 g2 g3 : List Char) : List Char :=
  'f' :: ' ' :: (g1 ++ ' ' :: (g2 ++ ' ' :: g3))

/-! ## The file as it is written

The specification describes the format by its text: one directive per line,
white-space separated fields, a leading token that selects the directive, and on an
`f` line three groups of slash-separated 1-based integers. The definitions of this
section follow those words and use nothing of the constructor but the cut of the text
into lines; they are what the constructor is compared with. -/

/-- The white-space separated fields of a text, `cur` being the field under way, last
character first. A field is a longest run of characters that are not white space. -/
def fieldsFrom : List Char → List Char → List (List Char)
  | [], cur => if cur = [] then [] else [cur.reverse]
  | c :: cs, cur =>
    if isspace c then
      (if cur = [] then fieldsFrom cs [] else cur.reverse :: fieldsFrom cs [])
    else fieldsFrom cs (c :: cur)

/-- The white-space separated fields of a line, in order. -/
def fieldsOf (text : List Char) : List (List Char) := fieldsFrom text []

/-- The pieces of a text between its slashes. -/
def slashParts : List Char → List (List Char)
  | [] => [[]]
  | c :: cs =>
    if c = '/' then [] :: slashParts cs
    else
      match slashParts cs with
      | [] => [[c]]
      | p :: ps => (c :: p) :: ps

/-- The three numbers that a group `p/t/n` writes, when the text is three numerals
separated by slashes. -/
def writtenGroup (g : List Char) : Option (Nat × Nat × Nat) :=
  match slashParts g with
  | [p, t, n] =>
    if IsNumeral p ∧ IsNumeral t ∧ IsNumeral n then
      some (numeralValue p, numeralValue t, numeralValue n)
    else none
  | _ => none

/-- The leading token of a line as written: its first field, the empty text when the
line has no field. -/
def writtenDirective (text : List Char) : List Char := (fieldsOf text).headD []

/-- The three groups that an `f` line writes: the line has four fields, the token `f`
and three groups. -/
def writtenFace (text : List Char) :
    Option ((Nat × Nat × Nat) × (Nat × Nat × Nat) × (Nat × Nat × Nat)) :=
  match fieldsOf text with
  | [tok, g1, g2, g3] =>
    if tok = ['f'] then
      (writtenGroup g1).bind fun a =>
      (writtenGroup g2).bind fun b =>
      (writtenGroup g3).map fun c => (a, b, c)
    else none
  | _ => none

/-- The 1-based index `i` is valid for a table of `n` entries. -/
def writtenIndexValid (n i : Nat) : Bool := decide (1 ≤ i) && decide (i ≤ n)

/-- The line writes three groups, and every index written is valid for tables of `nv`
positions, `nt` texture coordinates and `nn` normals. -/
def writtenFaceValid (nv nt nn : Nat) (text : List Char) : Bool :=
  match writtenFace text with
  | none => false
  | some ((p1, t1, n1), (p2, t2, n2), (p3, t3, n3)) =>
    writtenIndexValid nv p1 && writtenIndexValid nv p2 && writtenIndexValid nv p3 &&
    writtenIndexValid nt t1 && writtenIndexValid nt t2 && writtenIndexValid nt t3 &&
    writtenIndexValid nn n1 && writtenIndexValid nn n2 && writtenIndexValid nn n3

/-- Every line among `lines` whose leading token is `f` writes three groups whose
indices are valid at that line, the lines before the first of `lines` holding `nv`
lines `v`, `nt` lines `vt` and `nn` lines `vn`. -/
def writtenWellFormedFrom (nv nt nn : Nat) : List (List Char) → Bool
  | [] => true
  | l :: ls =>
    if writtenDirective l = ['v'] then writtenWellFormedFrom (nv + 1) nt nn ls
    else if writtenDirective l = ['v', 't'] then writtenWellFormedFrom nv (nt + 1) nn ls
    else if writtenDirective l = ['v', 'n'] then writtenWellFormedFrom nv nt (nn + 1) ls
    else if writtenDirective l = ['f'] then
      writtenFaceValid nv nt nn l && writtenWellFormedFrom nv nt nn ls
    else writtenWellFormedFrom nv nt nn ls

/-- A well-formed file, in the words of the specification: every face index written
in the file is valid at its line. -/
def WrittenWellFormed (content : List Char) : Prop :=
  writtenWellFormedFrom 0 0 0 (fileLines content) = true

instance (content : List Char) : Decidable (WrittenWellFormed content) := by
  unfold WrittenWellFormed
  infer_instance

/-- The number of `f` directives among some lines: the lines whose leading token, the
first white-space separated field, is `f`. -/
def writtenCountFaces (lines : List (List Char)) : Nat :=
  (lines.filter (fun l => decide (writtenDirective l = ['f']))).length

/-! ## Concrete data for the examples -/

/-- A triangle over the integers, bound to the shader `7`. -/
def exampleTriangle : CPrimTriangle ℤ Nat :=
  ⟨7, ⟨1, 0, 0⟩, ⟨3, 1, 0⟩, ⟨0, 2, 5⟩, ⟨0, 0⟩, ⟨1, 0⟩, ⟨0, 1⟩, ⟨0, 0, 1⟩, ⟨0, 0, 1⟩, ⟨0, 0, 1⟩⟩

/-- The affine matrix that doubles every coordinate. -/
def exampleScale : Mat ℤ :=
  fun i j => if i = j then (if i = 3 then 1 else 2) else 0

/-- An affine matrix with a linear part and a translation part. -/
def exampleAffine : Mat ℤ :=
  fun i j =>
    if i = 3 then (if j = 3 then 1 else 0)
    else if j = 3 then 5 + (i : ℤ)
    else if i = j then 2
    else if (i : ℕ) + 1 = j then 1
    else 0

/-- A solid with pivot `(1, 2, 3)` that holds the primitive `0` once. -/
def exampleSolid : CSolid ℤ := ⟨⟨1, 2, 3⟩, [0]⟩

/-- A solid with pivot `(1, 0, 0)` that holds the primitive `0` twice. -/
def exampleSolidTwice : CSolid ℤ := ⟨⟨1, 0, 0⟩, [0, 0]⟩

/-- An OBJ text: a comment, four positions, a normal, a texture coordinate, two
faces and a directive the constructor does not know. -/
def exampleObj : List Char :=
  ("# two faces\nv 0 0 0\nv 1 0 0\nv 0 1 0\nv 1 1 0\nvn 0 0 1\nvt 0.2 0.3\n" ++
    "f 1/1/1 2/1/1 3/1/1\nmtllib x\nf 2/1/1 4/1/1 3/1/1\n").toList

/-- The affine matrix that moves every point by `(1, 0, 0)`. -/
def exampleShift : Mat ℤ := CTransform.translate ⟨1, 0, 0⟩

/-- The text `exampleObj` without its line `mtllib x`. -/
def exampleObjShort : List Char :=
  ("# two faces\nv 0 0 0\nv 1 0 0\nv 0 1 0\nv 1 1 0\nvn 0 0 1\nvt 0.2 0.3\n" ++
    "f 1/1/1 2/1/1 3/1/1\nf 2/1/1 4/1/1 3/1/1\n").toList

/-- A solid that holds the primitive `0` once, with its pivot `(1, 0, 0)` on the first
vertex of `exampleTriangle`. -/
def exampleSolidAtVertex : CSolid ℤ := ⟨⟨1, 0, 0⟩, [0]⟩

/-- A solid with pivot `(0, 0, 0)` that holds the primitive `0` once. -/
def exampleSolidOrigin : CSolid ℤ := ⟨⟨0, 0, 0⟩, [0]⟩

/-- The six-line file of the concrete scenario of the specification. -/
def sixLineObj : List Char :=
  "v 0 0 0\nv 1 0 0\nv 0 1 0\nvn 0 0 1\nvt 0 0\nf 1/1/1 2/1/1 3/1/1".toList

/-- The first five lines of `sixLineObj`, then its `f` line written with two spaces
between the first and the second group. -/
def twoSpacesObj : List Char :=
  "v 0 0 0\nv 1 0 0\nv 0 1 0\nvn 0 0 1\nvt 0 0\nf 1/1/1  2/1/1 3/1/1".toList

/-- The first five lines of `sixLineObj`, then its `f` line written with a tab
between the first and the second group. -/
def tabObj : List Char :=
  "v 0 0 0\nv 1 0 0\nv 0 1 0\nvn 0 0 1\nvt 0 0\nf 1/1/1\t2/1/1 3/1/1".toList

/-- The first five lines of `sixLineObj`, then its `f` line written with two spaces
after the token `f`. -/
def spacesAfterFObj : List Char :=
  "v 0 0 0\nv 1 0 0\nv 0 1 0\nvn 0 0 1\nvt 0 0\nf  1/1/1 2/1/1 3/1/1".toList

/-- The first five lines of `sixLineObj`, then its `f` line written with a tab after
the token `f`. -/
def tabAfterFObj : List Char :=
  "v 0 0 0\nv 1 0 0\nv 0 1 0\nvn 0 0 1\nvt 0 0\nf\t1/1/1 2/1/1 3/1/1".toList

/-- A leaf solid that holds the primitives `0` and `1`. -/
def exampleLeafA : CSolid ℤ := ⟨⟨1, 2, 3⟩, [0, 1]⟩

/-- A leaf solid that holds the primitives `2`, `3` and `1`. -/
def exampleLeafB : CSolid ℤ := ⟨⟨4, 5, 6⟩, [2, 3, 1]⟩

/-! # Theorems -/

variable {F P Sh : Type}

/-! ## Vectors, matrices, points -/

theorem Vec3.eq_iff {α : Type} (a b : Vec3 α) :
    a = b ↔ a.x = b.x ∧ a.y = b.y ∧ a.z = b.z := by
  cases a; cases b; simp

@[simp] theorem Vec3.add_x {α : Type} [Add α] (a b : Vec3 α) : (a + b).x = a.x + b.x := rfl
@[simp] theorem Vec3.add_y {α : Type} [Add α] (a b : Vec3 α) : (a + b).y = a.y + b.y := rfl
@[simp] theorem Vec3.add_z {α : Type} [Add α] (a b : Vec3 α) : (a + b).z = a.z + b.z := rfl
@[simp] theorem Vec3.neg_x {α : Type} [Neg α] (a : Vec3 α) : (-a).x = -a.x := rfl
@[simp] theorem Vec3.neg_y {α : Type} [Neg α] (a : Vec3 α) : (-a).y = -a.y := rfl
@[simp] theorem Vec3.neg_z {α : Type} [Neg α] (a : Vec3 α) : (-a).z = -a.z := rfl

theorem updatePivot_eq [Add F] (t : Mat F) (p : Vec3f F) :
    updatePivot t p = p + Mat.translation t := by
  rfl

theorem isAffine_translate [Ring F] (v : Vec3f F) : IsAffine (CTransform.translate v) := by
  simp [IsAffine, CTransform.translate]

theorem isAffine_mul [Ring F] {A B : Mat F} (hA : IsAffine A) (hB : IsAffine B) :
    IsAffine (A * B) := by
  obtain ⟨a0, a1, a2, a3⟩ := hA
  obtain ⟨b0, b1, b2, b3⟩ := hB
  simp [IsAffine, Matrix.mul_apply, Fin.sum_univ_four, a0, a1, a2, a3, b0, b1, b2, b3]

theorem isAffine_one [Ring F] : IsAffine (1 : Mat F) := by
  simp [IsAffine]

theorem point_mul [CommRing F] (A B : Mat F) (hB : IsAffine B) (p : Vec3f F) :
    CTransform.point (A * B) p = CTransform.point A (CTransform.point B p) := by
  obtain ⟨b0, b1, b2, b3⟩ := hB
  simp only [CTransform.point, Matrix.mul_apply, Fin.sum_univ_four, b0, b1, b2, b3]
  refine (Vec3.eq_iff _ _).2 ⟨?_, ?_, ?_⟩ <;> simp <;> ring

theorem point_one [CommRing F] (p : Vec3f F) : CTransform.point (1 : Mat F) p = p := by
  refine (Vec3.eq_iff _ _).2 ⟨?_, ?_, ?_⟩ <;> simp [CTransform.point]

theorem point_translate [CommRing F] (v p : Vec3f F) :
    CTransform.point (CTransform.translate v) p = p + v := by
  refine (Vec3.eq_iff _ _).2 ⟨?_, ?_, ?_⟩ <;> simp [CTransform.point, CTransform.translate]

theorem translate_mul_translate [Ring F] (a b : Vec3f F) :
    CTransform.translate a * CTransform.translate b = CTransform.translate (a + b) := by
  ext i j
  fin_cases i <;> fin_cases j <;>
    simp [CTransform.translate, Matrix.mul_apply, Fin.sum_univ_four, add_comm]

theorem translate_mul_translate_neg [Ring F] (p : Vec3f F) :
    CTransform.translate p * CTransform.translate (-p) = 1 := by
  ext i j
  fin_cases i <;> fin_cases j <;>
    simp [CTransform.translate, Matrix.mul_apply, Fin.sum_univ_four]

theorem CPrimTriangle.transform_mul [CommRing F] (A B : Mat F) (hA : IsAffine A)
    (x : CPrimTriangle F Sh) :
    CPrimTriangle.transform B (CPrimTriangle.transform A x) = CPrimTriangle.transform (B * A) x := by
  simp [CPrimTriangle.transform, point_mul B A hA]

theorem CPrimTriangle.accumulates [CommRing F] :
    Accumulates (CPrimTriangle.transform : Mat F → CPrimTriangle F Sh → CPrimTriangle F Sh) :=
  fun A B hA _ x => CPrimTriangle.transform_mul A B hA x

theorem CPrimTriangle.fixedByIdentity [CommRing F] :
    FixedByIdentity (CPrimTriangle.transform : Mat F → CPrimTriangle F Sh → CPrimTriangle F Sh) := by
  intro x
  simp [CPrimTriangle.transform, point_one]

/-! ## One pass over the handles -/

theorem transformAll_getElem? (pt : Mat F → P → P) (t : Mat F) (prims : List Nat)
    (heap : Heap P) (h : Nat) :
    (transformAll pt t prims heap)[h]? = (heap[h]?).map ((pt t)^[prims.count h]) := by
  induction prims generalizing heap with
  | nil => simp [transformAll]
  | cons p ps ih =>
    have hstep : transformAll pt t (p :: ps) heap
        = transformAll pt t ps (Heap.transformAt pt t heap p) := rfl
    rw [hstep, ih, Heap.transformAt, List.getElem?_modify]
    by_cases hp : p = h
    · subst hp
      cases hh : heap[p]? <;> simp [Function.iterate_succ_apply]
    · cases hh : heap[h]? <;> simp [hp, List.count_cons]

theorem transformAll_length (pt : Mat F → P → P) (t : Mat F) (prims : List Nat)
    (heap : Heap P) : (transformAll pt t prims heap).length = heap.length := by
  induction prims generalizing heap with
  | nil => rfl
  | cons p ps ih =>
    have hstep : transformAll pt t (p :: ps) heap
        = transformAll pt t ps (Heap.transformAt pt t heap p) := rfl
    rw [hstep, ih, Heap.transformAt, List.length_modify]


/-! ## `transform` -/

theorem transform_getElem? [Ring F] (pt : Mat F → P → P) (M : Mat F) (s : CSolid F)
    (heap : Heap P) (h : Nat) :
    (CSolid.transform pt M s heap).2[h]? =
      (heap[h]?).map (fun x =>
        (pt (CTransform.translate s.m_pivot))^[s.m_vpPrims.count h]
          ((pt (M * CTransform.translate (-s.m_pivot)))^[s.m_vpPrims.count h] x)) := by
  simp only [CSolid.transform, transformAll_getElem?, Option.map_map]
  rfl

theorem transform_pivot [Ring F] (pt : Mat F → P → P) (M : Mat F) (s : CSolid F)
    (heap : Heap P) :
    (CSolid.transform pt M s heap).1.m_pivot = s.m_pivot + Mat.translation M := rfl

theorem transform_prims [Ring F] (pt : Mat F → P → P) (M : Mat F) (s : CSolid F)
    (heap : Heap P) :
    (CSolid.transform pt M s heap).1.m_vpPrims = s.m_vpPrims := rfl

theorem iterate_cancel {α : Type} (f g : α → α) (hfg : ∀ x, f (g x) = x) (n : Nat) (x : α) :
    f^[n] (g^[n] x) = x := by
  induction n generalizing x with
  | zero => rfl
  | succ n ih =>
    rw [Function.iterate_succ_apply, Function.iterate_succ_apply', hfg, ih]

/-- The effect of `transform` on a store whose solid lists every handle once. -/
theorem transform_nodup [CommRing F] (pt : Mat F → P → P) (hacc : Accumulates pt)
    (M : Mat F) (hM : IsAffine M) (s : CSolid F) (heap : Heap P)
    (hnd : s.m_vpPrims.Nodup) (h : Nat) :
    (CSolid.transform pt M s heap).2[h]? =
      if h ∈ s.m_vpPrims then
        (heap[h]?).map
          (pt (CTransform.translate s.m_pivot * M * CTransform.translate (-s.m_pivot)))
      else heap[h]? := by
  rw [transform_getElem?]
  by_cases hh : h ∈ s.m_vpPrims
  · rw [if_pos hh, List.count_eq_one_of_mem hnd hh]
    congr 1
    funext x
    simp only [Function.iterate_one]
    rw [hacc _ _ (isAffine_mul hM (isAffine_translate _)) (isAffine_translate _),
      Matrix.mul_assoc]
  · rw [if_neg hh, List.count_eq_zero_of_not_mem hh]
    simp

/-- Claim C3, amended: for a solid whose list holds no handle twice, an affine matrix
`M` and primitives whose `transform` accumulates matrices, `transform(M)` (one pass
with `M * T1`, a second pass with `T2`, `T1` and `T2` built from the pivot before it is
updated) leaves in every cell the solid lists the primitive transformed once by
`T2 * M * T1`, and leaves every other cell of the store as it was. -/
theorem C3_transform_is_single_matrix [CommRing F] (pt : Mat F → P → P)
    (hacc : Accumulates pt) (M : Mat F) (hM : IsAffine M) (s : CSolid F) (heap : Heap P)
    (hnd : s.m_vpPrims.Nodup) (h : Nat) :
    (CSolid.transform pt M s heap).2[h]? =
      if h ∈ s.m_vpPrims then
        (heap[h]?).map
          (pt (CTransform.translate s.m_pivot * M * CTransform.translate (-s.m_pivot)))
      else heap[h]? :=
  transform_nodup pt hacc M hM s heap hnd h

/-- Claim C3 as stated fails on a solid that lists the same primitive twice: with
pivot `(1, 0, 0)` and the doubling matrix, the primitive `transform` leaves is not
the one a single application of `T2 * M * T1` gives. -/
theorem C3_counterexample :
    (CSolid.transform CPrimTriangle.transform exampleScale exampleSolidTwice
        [exampleTriangle]).2[0]? ≠
      ([exampleTriangle][0]?).map
        (CPrimTriangle.transform
          (CTransform.translate exampleSolidTwice.m_pivot * exampleScale *
            CTransform.translate (-exampleSolidTwice.m_pivot))) := by
  decide

theorem isAffine_exampleAffine : IsAffine exampleAffine := by
  simp [IsAffine, exampleAffine]

theorem isAffine_exampleScale : IsAffine exampleScale := by
  simp [IsAffine, exampleScale]

/-- Claim C3 at a concrete input: the solid `exampleSolid`, which lists the primitive
`0` once, and the matrix `exampleAffine`. -/
theorem C3_witness :
    (CSolid.transform CPrimTriangle.transform exampleAffine exampleSolid
        [exampleTriangle]).2[0]? =
      some (CPrimTriangle.transform
          (CTransform.translate exampleSolid.m_pivot * exampleAffine *
            CTransform.translate (-exampleSolid.m_pivot)) exampleTriangle) :=
  C3_transform_is_single_matrix CPrimTriangle.transform CPrimTriangle.accumulates
    exampleAffine isAffine_exampleAffine exampleSolid [exampleTriangle] (by decide) 0

/-- Claim C4: after `transform(M)` the pivot is the old pivot plus the translation
column `(M 0 3, M 1 3, M 2 3)`, component by component, for every matrix; and two
matrices with the same three entries leave the same pivot. -/
theorem C4_pivot_update [Ring F] (pt : Mat F → P → P) (M : Mat F) (s : CSolid F)
    (heap : Heap P) :
    (CSolid.transform pt M s heap).1.m_pivot = s.m_pivot + ⟨M 0 3, M 1 3, M 2 3⟩ ∧
    ∀ M' : Mat F, (M' 0 3 = M 0 3 ∧ M' 1 3 = M 1 3 ∧ M' 2 3 = M 2 3) →
      (CSolid.transform pt M' s heap).1.m_pivot = (CSolid.transform pt M s heap).1.m_pivot := by
  refine ⟨rfl, ?_⟩
  rintro M' ⟨h0, h1, h2⟩
  simp only [transform_pivot, Mat.translation, h0, h1, h2]

/-- Claim C5: for every solid (any pivot, any list of handles, repeated or not) and
every store, `transform` with the identity matrix leaves the solid, its pivot
included, and every primitive of the store unchanged; the primitives are those whose
`transform` accumulates matrices and does nothing for the identity matrix. -/
theorem C5_identity_transform [CommRing F] (pt : Mat F → P → P) (hacc : Accumulates pt)
    (hid : FixedByIdentity pt) (s : CSolid F) (heap : Heap P) :
    CSolid.transform pt 1 s heap = (s, heap) := by
  have hpiv : (CSolid.transform pt 1 s heap).1 = s := by
    cases s with
    | mk p prims =>
      simp only [CSolid.transform, updatePivot_eq, CSolid.mk.injEq, and_true]
      refine (Vec3.eq_iff _ _).2 ⟨?_, ?_, ?_⟩ <;> simp [Mat.translation]
  have hheap : (CSolid.transform pt 1 s heap).2 = heap := by
    apply List.ext_getElem?
    intro h
    rw [transform_getElem?]
    cases hh : heap[h]? with
    | none => rfl
    | some x =>
      simp only [Option.map_some', one_mul]
      congr 1
      apply iterate_cancel
      intro y
      rw [hacc _ _ (isAffine_translate _) (isAffine_translate _), translate_mul_translate_neg]
      exact hid y
  exact Prod.ext hpiv hheap

/-- Claim C5 at a concrete input: a solid that lists a triangle twice. -/
theorem C5_witness :
    CSolid.transform CPrimTriangle.transform 1 exampleSolidTwice [exampleTriangle]
      = (exampleSolidTwice, [exampleTriangle]) :=
  C5_identity_transform CPrimTriangle.transform CPrimTriangle.accumulates
    CPrimTriangle.fixedByIdentity exampleSolidTwice [exampleTriangle]


theorem point_net [CommRing F] (M : Mat F) (hM : IsAffine M) (p q : Vec3f F) :
    CTransform.point (CTransform.translate p * M * CTransform.translate (-p)) q
      = CTransform.point M (q + -p) + p := by
  rw [Matrix.mul_assoc, point_mul _ _ (isAffine_mul hM (isAffine_translate _)),
    point_mul _ _ (isAffine_translate _), point_translate, point_translate]

theorem point_pointAt [CommRing F] (N : Mat F) (tri : CPrimTriangle F Sh) (α β γ : F)
    (hsum : α + β + γ = 1) :
    (CPrimTriangle.transform N tri).pointAt α β γ = CTransform.point N (tri.pointAt α β γ) := by
  refine (Vec3.eq_iff _ _).2 ⟨?_, ?_, ?_⟩
  · simp only [CPrimTriangle.pointAt, CPrimTriangle.transform, CTransform.point]
    linear_combination (N 0 3) * hsum
  · simp only [CPrimTriangle.pointAt, CPrimTriangle.transform, CTransform.point]
    linear_combination (N 1 3) * hsum
  · simp only [CPrimTriangle.pointAt, CPrimTriangle.transform, CTransform.point]
    linear_combination (N 2 3) * hsum

theorem point_net_pivot [CommRing F] (M : Mat F) (hM : IsAffine M) (p : Vec3f F) :
    CTransform.point (CTransform.translate p * M * CTransform.translate (-p)) p
      = p + Mat.translation M := by
  rw [point_net M hM]
  refine (Vec3.eq_iff _ _).2 ⟨?_, ?_, ?_⟩ <;>
    simp [CTransform.point, Mat.translation] <;> ring

/-- Claim C9, amended: for a solid of triangles whose list holds no handle twice and an
affine matrix `M`, the pivot stored by `transform(M)` is the image of the old pivot
under `T2 * M * T1`, which is the matrix the call applies to every triangle of the
solid; so a point of a triangle that lies on the old pivot lies on the new pivot after
the call, and when the translation column of `M` is zero the pivot is a fixed point of
that matrix and is left where it was. -/
theorem C9_pivot_follows_net_map [CommRing F] (M : Mat F) (hM : IsAffine M) (s : CSolid F)
    (heap : Heap (CPrimTriangle F Sh)) (hnd : s.m_vpPrims.Nodup) :
    (CSolid.transform CPrimTriangle.transform M s heap).1.m_pivot =
        CTransform.point
          (CTransform.translate s.m_pivot * M * CTransform.translate (-s.m_pivot)) s.m_pivot ∧
    (∀ (h : Nat) (tri : CPrimTriangle F Sh), h ∈ s.m_vpPrims → heap[h]? = some tri →
      (CSolid.transform CPrimTriangle.transform M s heap).2[h]? =
          some (CPrimTriangle.transform
            (CTransform.translate s.m_pivot * M * CTransform.translate (-s.m_pivot)) tri) ∧
      ∀ α β γ : F, α + β + γ = 1 → tri.pointAt α β γ = s.m_pivot →
        (CPrimTriangle.transform
            (CTransform.translate s.m_pivot * M * CTransform.translate (-s.m_pivot)) tri).pointAt
          α β γ = (CSolid.transform CPrimTriangle.transform M s heap).1.m_pivot) ∧
    (Mat.translation M = ⟨0, 0, 0⟩ →
      CTransform.point
          (CTransform.translate s.m_pivot * M * CTransform.translate (-s.m_pivot)) s.m_pivot
        = s.m_pivot ∧
      (CSolid.transform CPrimTriangle.transform M s heap).1.m_pivot = s.m_pivot) := by
  have key := point_net_pivot M hM s.m_pivot
  have hz : Mat.translation M = ⟨0, 0, 0⟩ → s.m_pivot + Mat.translation M = s.m_pivot := by
    intro h0
    rw [h0]
    refine (Vec3.eq_iff _ _).2 ⟨?_, ?_, ?_⟩ <;> simp
  refine ⟨?_, ?_, ?_⟩
  · rw [key, transform_pivot]
  · intro h tri hmem hcell
    refine ⟨?_, ?_⟩
    · rw [transform_nodup CPrimTriangle.transform CPrimTriangle.accumulates M hM s heap hnd h,
        if_pos hmem, hcell]
      rfl
    · intro α β γ hsum hat
      rw [point_pointAt _ _ _ _ _ hsum, hat, key, transform_pivot]
  · intro h0
    exact ⟨by rw [key, hz h0], by rw [transform_pivot, hz h0]⟩

/-- Claim C9 as stated fails on a solid that lists the same triangle twice: the first
vertex lies on the pivot `(1, 0, 0)`, the doubling matrix has a zero translation
column, and after `transform` the vertex is no longer on the pivot. -/
theorem C9_counterexample :
    exampleTriangle.a = exampleSolidTwice.m_pivot ∧
    Mat.translation exampleScale = ⟨0, 0, 0⟩ ∧
    ((CSolid.transform CPrimTriangle.transform exampleScale exampleSolidTwice
        [exampleTriangle]).2[0]?).map (fun tri => tri.a) ≠
      some (CSolid.transform CPrimTriangle.transform exampleScale exampleSolidTwice
        [exampleTriangle]).1.m_pivot := by
  decide

/-- Claim C9 at a concrete input: the first vertex of the triangle lies on the pivot of
`exampleSolidAtVertex`, and after `transform` with `exampleAffine` it lies on the new
pivot. -/
theorem C9_witness :
    (CSolid.transform CPrimTriangle.transform exampleAffine exampleSolidAtVertex
        [exampleTriangle]).2[0]? =
      some (CPrimTriangle.transform
        (CTransform.translate exampleSolidAtVertex.m_pivot * exampleAffine *
          CTransform.translate (-exampleSolidAtVertex.m_pivot)) exampleTriangle) ∧
    (CPrimTriangle.transform
        (CTransform.translate exampleSolidAtVertex.m_pivot * exampleAffine *
          CTransform.translate (-exampleSolidAtVertex.m_pivot)) exampleTriangle).pointAt 1 0 0 =
      (CSolid.transform CPrimTriangle.transform exampleAffine exampleSolidAtVertex
        [exampleTriangle]).1.m_pivot :=
  ⟨((C9_pivot_follows_net_map exampleAffine isAffine_exampleAffine exampleSolidAtVertex
      [exampleTriangle] (by decide)).2.1 0 exampleTriangle (by decide) (by decide)).1,
   ((C9_pivot_follows_net_map exampleAffine isAffine_exampleAffine exampleSolidAtVertex
      [exampleTriangle] (by decide)).2.1 0 exampleTriangle (by decide) (by decide)).2
      1 0 0 (by decide) (by decide)⟩

/-- Claim C10, amended: for a solid whose list holds no handle twice and affine
matrices `A` and `B`, `transform(A)` followed by `transform(B)` leaves in every listed
cell the primitive transformed once by
`translate(p + trans A) * B * translate(-(p + trans A)) * translate(p) * A * translate(-p)`,
leaves the other cells alone and leaves the pivot at `p + trans A + trans B`; and this
is not what the single call `transform(B * A)` does: for a shift followed by a
doubling the two results differ. -/
theorem C10_two_transforms [CommRing F] (pt : Mat F → P → P) (hacc : Accumulates pt)
    (A B : Mat F) (hA : IsAffine A) (hB : IsAffine B) (s : CSolid F) (heap : Heap P)
    (hnd : s.m_vpPrims.Nodup) (h : Nat) :
    (CSolid.transform pt B (CSolid.transform pt A s heap).1
        (CSolid.transform pt A s heap).2).2[h]? =
      (if h ∈ s.m_vpPrims then
        (heap[h]?).map
          (pt (CTransform.translate (s.m_pivot + Mat.translation A) * B *
                CTransform.translate (-(s.m_pivot + Mat.translation A)) *
                CTransform.translate s.m_pivot * A * CTransform.translate (-s.m_pivot)))
      else heap[h]?) ∧
    (CSolid.transform pt B (CSolid.transform pt A s heap).1
        (CSolid.transform pt A s heap).2).1.m_pivot =
      s.m_pivot + Mat.translation A + Mat.translation B ∧
    CSolid.transform CPrimTriangle.transform exampleScale
        (CSolid.transform CPrimTriangle.transform exampleShift exampleSolidOrigin
          [exampleTriangle]).1
        (CSolid.transform CPrimTriangle.transform exampleShift exampleSolidOrigin
          [exampleTriangle]).2 ≠
      CSolid.transform CPrimTriangle.transform (exampleScale * exampleShift)
        exampleSolidOrigin [exampleTriangle] := by
  refine ⟨?_, ?_, by decide⟩
  · rw [transform_nodup pt hacc B hB _ _ (by rw [transform_prims]; exact hnd),
      transform_prims, transform_pivot, transform_nodup pt hacc A hA s heap hnd]
    by_cases hh : h ∈ s.m_vpPrims
    · simp only [if_pos hh, Option.map_map]
      congr 1
      funext x
      simp only [Function.comp_apply]
      rw [hacc _ _ (isAffine_mul (isAffine_mul (isAffine_translate _) hA) (isAffine_translate _))
        (isAffine_mul (isAffine_mul (isAffine_translate _) hB) (isAffine_translate _))]
      simp only [Matrix.mul_assoc]
    · simp only [if_neg hh]
  · rw [transform_pivot, transform_pivot]

theorem isAffine_exampleShift : IsAffine exampleShift := isAffine_translate _

/-- Claim C10 at a concrete input: `exampleAffine` and then the doubling matrix, on a
solid that lists the primitive `0` once. -/
theorem C10_witness :
    (CSolid.transform CPrimTriangle.transform exampleScale
        (CSolid.transform CPrimTriangle.transform exampleAffine exampleSolid
          [exampleTriangle]).1
        (CSolid.transform CPrimTriangle.transform exampleAffine exampleSolid
          [exampleTriangle]).2).2[0]? =
      some (CPrimTriangle.transform
        (CTransform.translate (exampleSolid.m_pivot + Mat.translation exampleAffine) *
          exampleScale *
          CTransform.translate (-(exampleSolid.m_pivot + Mat.translation exampleAffine)) *
          CTransform.translate exampleSolid.m_pivot * exampleAffine *
          CTransform.translate (-exampleSolid.m_pivot)) exampleTriangle) :=
  (C10_two_transforms CPrimTriangle.transform CPrimTriangle.accumulates exampleAffine
    exampleScale isAffine_exampleAffine isAffine_exampleScale exampleSolid [exampleTriangle]
    (by decide) 0).1

/-- Claim C10 as stated fails on a solid that lists the same primitive twice: after a
shift and then a doubling the primitive is not the one the composed matrix of the
claim gives. -/
theorem C10_counterexample :
    (CSolid.transform CPrimTriangle.transform exampleScale
        (CSolid.transform CPrimTriangle.transform exampleShift exampleSolidTwice
          [exampleTriangle]).1
        (CSolid.transform CPrimTriangle.transform exampleShift exampleSolidTwice
          [exampleTriangle]).2).2[0]? ≠
      some (CPrimTriangle.transform
        (CTransform.translate (exampleSolidTwice.m_pivot + Mat.translation exampleShift) *
          exampleScale *
          CTransform.translate (-(exampleSolidTwice.m_pivot + Mat.translation exampleShift)) *
          CTransform.translate exampleSolidTwice.m_pivot * exampleShift *
          CTransform.translate (-exampleSolidTwice.m_pivot)) exampleTriangle) := by
  decide

/-- Claim C4 at a concrete input: pivot `(1, 2, 3)` and a matrix whose translation
column is `(5, 6, 7)`. -/
theorem C4_witness :
    (CSolid.transform CPrimTriangle.transform exampleAffine exampleSolid
        [exampleTriangle]).1.m_pivot = ⟨6, 8, 10⟩ :=
  (C4_pivot_update CPrimTriangle.transform exampleAffine exampleSolid [exampleTriangle]).1

/-! ## The constructor that parses a file -/

/-! ## Lines -/

theorem splitDelim_newline_some : ∀ (t s rest : List Char),
    splitDelim '\n' t = (s, some rest) →
      fileLines t = s :: fileLines rest ∧ rest.length < t.length
  | [], s, rest, h => by simp [splitDelim] at h
  | c :: cs, s, rest, h => by
    by_cases hc : c = '\n'
    · simp only [splitDelim, if_pos hc, Prod.mk.injEq, Option.some.injEq] at h
      obtain ⟨rfl, rfl⟩ := h
      simp [fileLines, hc]
    · simp only [splitDelim, if_neg hc, Prod.mk.injEq] at h
      obtain ⟨rfl, h2⟩ := h
      have ih := splitDelim_newline_some cs (splitDelim '\n' cs).1 rest
        (Prod.ext rfl h2)
      simp only [fileLines, if_neg hc, ih.1, List.length_cons]
      exact ⟨trivial, Nat.lt_succ_of_lt ih.2⟩

theorem splitDelim_newline_none : ∀ (t s : List Char),
    splitDelim '\n' t = (s, none) → s = t ∧ (t ≠ [] → fileLines t = [t])
  | [], s, h => by
    simp only [splitDelim, Prod.mk.injEq, and_true] at h
    exact ⟨h.symm, fun hne => absurd rfl hne⟩
  | c :: cs, s, h => by
    by_cases hc : c = '\n'
    · simp [splitDelim, if_pos hc] at h
    · simp only [splitDelim, if_neg hc, Prod.mk.injEq] at h
      obtain ⟨rfl, h2⟩ := h
      have ih := splitDelim_newline_none cs (splitDelim '\n' cs).1 (Prod.ext rfl h2)
      refine ⟨by rw [ih.1], fun _ => ?_⟩
      cases cs with
      | nil => simp [fileLines, hc]
      | cons d ds =>
        simp only [fileLines, if_neg hc] at ih ⊢
        have h3 := ih.2 (List.cons_ne_nil _ _)
        simp only [fileLines] at h3
        rw [h3]

theorem parseLoop_eofbit [Zero F] [One F] [Sub F]
    (numGet : List Char → Option F × List Char) (sh : Sh) (fuel : Nat) (line : List Char)
    (st : ParseState F Sh) :
    parseLoop numGet sh (fuel + 1) ⟨[], true, false⟩ line st = Outcome.done st := by
  simp [parseLoop, getline, IStream.good]

theorem parseLoop_eq [Zero F] [One F] [Sub F]
    (numGet : List Char → Option F × List Char) (sh : Sh) :
    ∀ (fuel : Nat) (content line : List Char) (st : ParseState F Sh),
      content.length < fuel →
      parseLoop numGet sh fuel (IStream.ofText content) line st
        = Outcome.ofOption (parseLines numGet sh st (fileLines content))
  | 0, _, _, _, h => absurd h (Nat.not_lt_zero _)
  | fuel + 1, content, line, st, h => by
    rcases hsp : splitDelim '\n' content with ⟨s, _ | rest⟩
    · -- the text ends before a newline
      obtain ⟨rfl, hl⟩ := splitDelim_newline_none content s hsp
      cases hcont : s with
      | nil =>
        subst hcont
        simp [parseLoop, getline, IStream.good, IStream.ofText, splitDelim, fileLines,
          parseLines, Outcome.ofOption]
      | cons c cs =>
        rw [← hcont]
        have hne : s ≠ [] := by rw [hcont]; exact List.cons_ne_nil _ _
        have hg : getline (IStream.ofText s) line '\n' = (⟨[], true, false⟩, s) := by
          simp [getline, IStream.good, IStream.ofText, hsp, hne]
        obtain ⟨k, rfl⟩ : ∃ k, fuel = k + 1 := by
          cases fuel with
          | zero => rw [hcont] at h; simp at h
          | succ k => exact ⟨k, rfl⟩
        rw [hl hne]
        unfold parseLoop
        rw [hg]
        simp only [Bool.false_eq_true, if_false, parseLines]
        cases processLine numGet sh st s with
        | none => rfl
        | some st1 => simp [parseLoop_eofbit, Outcome.ofOption]
    · obtain ⟨hl, hlen⟩ := splitDelim_newline_some content s rest hsp
      have hg : getline (IStream.ofText content) line '\n' = (IStream.ofText rest, s) := by
        simp [getline, IStream.good, IStream.ofText, hsp]
      rw [hl]
      unfold parseLoop
      rw [hg]
      simp only [IStream.ofText, Bool.false_eq_true, if_false, parseLines]
      cases processLine numGet sh st s with
      | none => rfl
      | some st1 =>
        exact parseLoop_eq numGet sh fuel rest s st1 (by omega)

theorem fromFile_eq [Zero F] [One F] [Sub F]
    (numGet : List Char → Option F × List Char) (sh : Sh) (content : List Char)
    (heap : Heap (CPrimTriangle F Sh)) :
    CSolid.fromFile numGet sh (some content) heap =
      Outcome.ofOption
        ((parseLines numGet sh (ParseState.init heap) (fileLines content)).map
          (fun st => (st.solid, st.heap))) := by
  simp only [CSolid.fromFile, parseLoop_eq numGet sh _ content [] _ (Nat.lt_succ_self _)]
  cases parseLines numGet sh (ParseState.init heap) (fileLines content) <;> rfl


/-! ## One line -/

section lines
variable [Zero F] [One F] [Sub F] (numGet : List Char → Option F × List Char) (sh : Sh)

theorem processLine_v (st : ParseState F Sh) (l : List Char) (h : directive l = ['v']) :
    processLine numGet sh st l =
      some { st with vVertexes := st.vVertexes ++ [readVec3 numGet (leadingToken l).1] } := by
  unfold directive at h
  simp [processLine, h]

theorem processLine_vt (st : ParseState F Sh) (l : List Char) (h : directive l = ['v', 't']) :
    processLine numGet sh st l =
      some { st with vTextures := st.vTextures ++
        [⟨(readVec2 numGet (leadingToken l).1).x, 1 - (readVec2 numGet (leadingToken l).1).y⟩] } := by
  unfold directive at h
  simp [processLine, h]

theorem processLine_vn (st : ParseState F Sh) (l : List Char) (h : directive l = ['v', 'n']) :
    processLine numGet sh st l =
      some { st with vNormals := st.vNormals ++ [readVec3 numGet (leadingToken l).1] } := by
  unfold directive at h
  simp [processLine, h]

theorem processLine_f (st : ParseState F Sh) (l : List Char) (h : directive l = ['f']) :
    processLine numGet sh st l =
      (faceIndices (leadingToken l).1 (leadingToken l).2).bind (fun r =>
        (makeTriangle sh st r.1 r.2.1 r.2.2).map (fun tri =>
          { st with solid := st.solid.add st.heap.length, heap := st.heap ++ [tri] })) := by
  unfold directive at h
  simp only [processLine, h, Heap.alloc]
  rcases faceIndices (leadingToken l).1 ['f'] with _ | ⟨V, T, N⟩
  · simp
  · rcases hmt : makeTriangle sh st V T N with _ | tri <;> simp [hmt]

theorem processLine_other (st : ParseState F Sh) (l : List Char)
    (hv : directive l ≠ ['v']) (hvt : directive l ≠ ['v', 't'])
    (hvn : directive l ≠ ['v', 'n']) (hf : directive l ≠ ['f']) :
    processLine numGet sh st l = some st := by
  unfold directive at hv hvt hvn hf
  simp [processLine, hv, hvt, hvn, hf]

theorem parseLines_append (st : ParseState F Sh) (xs ys : List (List Char)) :
    parseLines numGet sh st (xs ++ ys) =
      (parseLines numGet sh st xs).bind (fun st1 => parseLines numGet sh st1 ys) := by
  induction xs generalizing st with
  | nil => rfl
  | cons x xs ih =>
    simp only [List.cons_append, parseLines]
    cases processLine numGet sh st x with
    | none => rfl
    | some st1 => exact ih st1

/-- What the loop has built after some lines, in terms of the lines. -/
theorem parseLines_state (lines : List (List Char)) :
    ∀ (st st' : ParseState F Sh), parseLines numGet sh st lines = some st' →
      st'.vVertexes = st.vVertexes ++ positionsOf numGet lines ∧
      st'.vTextures = st.vTextures ++ texturesOf numGet lines ∧
      st'.vNormals = st.vNormals ++ normalsOf numGet lines ∧
      st'.solid.m_pivot = st.solid.m_pivot ∧
      st'.solid.m_vpPrims = st.solid.m_vpPrims ++ List.range' st.heap.length (countFaces lines) ∧
      ∃ tris, st'.heap = st.heap ++ tris ∧ tris.length = countFaces lines := by
  induction lines with
  | nil =>
    intro st st' h
    simp only [parseLines, Option.some.injEq] at h
    subst h
    simp [positionsOf, texturesOf, normalsOf, countFaces]
  | cons l ls ih =>
    intro st st' h
    simp only [parseLines] at h
    by_cases hv : directive l = ['v']
    · rw [processLine_v numGet sh st l hv] at h
      obtain ⟨h1, h2, h3, h4, h5, h6⟩ := ih _ _ h
      simp only [h1, h2, h3, h4, h5, positionsOf, texturesOf, normalsOf, countFaces,
        List.filter_cons, hv]
      simpa [positionsOf, texturesOf, normalsOf, countFaces] using h6
    · by_cases hvt : directive l = ['v', 't']
      · rw [processLine_vt numGet sh st l hvt] at h
        obtain ⟨h1, h2, h3, h4, h5, h6⟩ := ih _ _ h
        simp only [h1, h2, h3, h4, h5, positionsOf, texturesOf, normalsOf, countFaces,
          List.filter_cons, hvt]
        simpa [positionsOf, texturesOf, normalsOf, countFaces] using h6
      · by_cases hvn : directive l = ['v', 'n']
        · rw [processLine_vn numGet sh st l hvn] at h
          obtain ⟨h1, h2, h3, h4, h5, h6⟩ := ih _ _ h
          simp only [h1, h2, h3, h4, h5, positionsOf, texturesOf, normalsOf, countFaces,
            List.filter_cons, hvn]
          simpa [positionsOf, texturesOf, normalsOf, countFaces] using h6
        · by_cases hf : directive l = ['f']
          · rw [processLine_f numGet sh st l hf] at h
            rcases hfi : faceIndices (leadingToken l).1 (leadingToken l).2 with _ | ⟨V, T, N⟩
            · simp [hfi] at h
            · rcases hmt : makeTriangle sh st V T N with _ | tri
              · simp [hfi, hmt] at h
              · simp only [hfi, hmt, Option.some_bind, Option.map_some'] at h
                obtain ⟨h1, h2, h3, h4, h5, tris, h6, h7⟩ := ih _ _ h
                simp only [CSolid.add] at h1 h2 h3 h4 h5 h6
                refine ⟨?_, ?_, ?_, ?_, ?_, tri :: tris, ?_, ?_⟩
                · simpa [positionsOf, List.filter_cons, hf] using h1
                · simpa [texturesOf, List.filter_cons, hf] using h2
                · simpa [normalsOf, List.filter_cons, hf] using h3
                · exact h4
                · rw [h5]
                  simp [countFaces, List.filter_cons, hf, List.range'_succ]
                · rw [h6]; simp
                · simp [countFaces, List.filter_cons, hf, h7]
          · rw [processLine_other numGet sh st l hv hvt hvn hf] at h
            obtain ⟨h1, h2, h3, h4, h5, h6⟩ := ih _ _ h
            simp only [h1, h2, h3, h4, h5, positionsOf, texturesOf, normalsOf, countFaces,
              List.filter_cons, hv, hvt, hvn, hf]
            simpa [positionsOf, texturesOf, normalsOf, countFaces] using h6

end lines


/-! ## Files whose `f` lines are read in range -/

theorem vectorAt_isSome {α : Type} (v : List α) (i : Int) (h0 : 0 ≤ i) (h1 : i < v.length) :
    ∃ a, vectorAt v i = some a := by
  have hlt : i.toNat < v.length := by omega
  exact ⟨v[i.toNat], by simp [vectorAt, h0, List.getElem?_eq_getElem hlt]⟩

theorem vectorAt_append {α : Type} (v w : List α) (i : Int) (a : α)
    (h : vectorAt v i = some a) : vectorAt (v ++ w) i = some a := by
  by_cases h0 : 0 ≤ i
  · simp only [vectorAt, h0, if_true] at h ⊢
    have hlt : i.toNat < v.length := by
      by_contra hge
      rw [List.getElem?_eq_none (by omega)] at h
      exact absurd h (by simp)
    rw [List.getElem?_append_left hlt]
    exact h
  · simp [vectorAt, h0] at h

theorem makeTriangle_eq_some {F Sh : Type} (sh : Sh) (st : ParseState F Sh) (V T N : Vec3i)
    (tri : CPrimTriangle F Sh) :
    makeTriangle sh st V T N = some tri ↔
      (tri.pShader = sh ∧
        vectorAt st.vVertexes V.x = some tri.a ∧ vectorAt st.vVertexes V.y = some tri.b ∧
        vectorAt st.vVertexes V.z = some tri.c ∧
        vectorAt st.vTextures T.x = some tri.ta ∧ vectorAt st.vTextures T.y = some tri.tb ∧
        vectorAt st.vTextures T.z = some tri.tc ∧
        vectorAt st.vNormals N.x = some tri.na ∧ vectorAt st.vNormals N.y = some tri.nb ∧
        vectorAt st.vNormals N.z = some tri.nc) := by
  unfold makeTriangle
  cases tri
  cases vectorAt st.vVertexes V.x <;> cases vectorAt st.vVertexes V.y <;>
    cases vectorAt st.vVertexes V.z <;> cases vectorAt st.vTextures T.x <;>
    cases vectorAt st.vTextures T.y <;> cases vectorAt st.vTextures T.z <;>
    cases vectorAt st.vNormals N.x <;> cases vectorAt st.vNormals N.y <;>
    cases vectorAt st.vNormals N.z <;> simp
  tauto


theorem makeTriangle_isSome {F Sh : Type} (sh : Sh) (st : ParseState F Sh) (V T N : Vec3i)
    (hV : indexValid st.vVertexes.length V = true)
    (hT : indexValid st.vTextures.length T = true)
    (hN : indexValid st.vNormals.length N = true) :
    ∃ tri, makeTriangle sh st V T N = some tri := by
  simp only [indexValid, Bool.and_eq_true, decide_eq_true_eq] at hV hT hN
  obtain ⟨a, ha⟩ := vectorAt_isSome st.vVertexes V.x hV.1.1.1 hV.1.1.2
  obtain ⟨b, hb⟩ := vectorAt_isSome st.vVertexes V.y hV.1.2.1 hV.1.2.2
  obtain ⟨c, hc⟩ := vectorAt_isSome st.vVertexes V.z hV.2.1 hV.2.2
  obtain ⟨ta, hta⟩ := vectorAt_isSome st.vTextures T.x hT.1.1.1 hT.1.1.2
  obtain ⟨tb, htb⟩ := vectorAt_isSome st.vTextures T.y hT.1.2.1 hT.1.2.2
  obtain ⟨tc, htc⟩ := vectorAt_isSome st.vTextures T.z hT.2.1 hT.2.2
  obtain ⟨na, hna⟩ := vectorAt_isSome st.vNormals N.x hN.1.1.1 hN.1.1.2
  obtain ⟨nb, hnb⟩ := vectorAt_isSome st.vNormals N.y hN.1.2.1 hN.1.2.2
  obtain ⟨nc, hnc⟩ := vectorAt_isSome st.vNormals N.z hN.2.1 hN.2.2
  exact ⟨⟨sh, a, b, c, ta, tb, tc, na, nb, nc⟩,
    (makeTriangle_eq_some sh st V T N _).2 ⟨rfl, ha, hb, hc, hta, htb, htc, hna, hnb, hnc⟩⟩

section wf
variable [Zero F] [One F] [Sub F] (numGet : List Char → Option F × List Char) (sh : Sh)

/-- On lines whose `f` lines are read in range the loop meets no undefined behaviour. -/
theorem parseLines_isSome (lines : List (List Char)) :
    ∀ (st : ParseState F Sh),
      readsInRangeFrom st.vVertexes.length st.vTextures.length st.vNormals.length lines = true →
      ∃ st', parseLines numGet sh st lines = some st' := by
  induction lines with
  | nil => intro st _; exact ⟨st, rfl⟩
  | cons l ls ih =>
    intro st hwf
    simp only [parseLines]
    by_cases hv : directive l = ['v']
    · rw [processLine_v numGet sh st l hv]
      apply ih
      simpa [readsInRangeFrom, hv] using hwf
    · by_cases hvt : directive l = ['v', 't']
      · rw [processLine_vt numGet sh st l hvt]
        apply ih
        simpa [readsInRangeFrom, hv, hvt] using hwf
      · by_cases hvn : directive l = ['v', 'n']
        · rw [processLine_vn numGet sh st l hvn]
          apply ih
          simpa [readsInRangeFrom, hv, hvt, hvn] using hwf
        · by_cases hf : directive l = ['f']
          · have hwf2 : faceValid st.vVertexes.length st.vTextures.length st.vNormals.length l
                  = true ∧
                readsInRangeFrom st.vVertexes.length st.vTextures.length st.vNormals.length ls
                  = true := by
              simpa [readsInRangeFrom, hv, hvt, hvn, hf] using hwf
            obtain ⟨hface, hrest⟩ := hwf2
            rw [processLine_f numGet sh st l hf]
            unfold faceValid at hface
            rcases hfi : faceIndices (leadingToken l).1 (leadingToken l).2 with _ | ⟨V, T, N⟩
            · simp [hfi] at hface
            · simp only [hfi, Bool.and_eq_true] at hface
              obtain ⟨tri, htri⟩ := makeTriangle_isSome sh st V T N hface.1.1 hface.1.2 hface.2
              simp only [Option.some_bind, htri, Option.map_some']
              apply ih
              exact hrest
          · rw [processLine_other numGet sh st l hv hvt hvn hf]
            apply ih
            simpa [readsInRangeFrom, hv, hvt, hvn, hf] using hwf

theorem fromFile_readsInRange (content : List Char) (heap : Heap (CPrimTriangle F Sh))
    (hwf : ReadsInRange content) :
    ∃ st, parseLines numGet sh (ParseState.init heap) (fileLines content) = some st ∧
      CSolid.fromFile numGet sh (some content) heap = Outcome.done (st.solid, st.heap) := by
  obtain ⟨st, hst⟩ := parseLines_isSome numGet sh (fileLines content) (ParseState.init heap)
    (by simpa [ParseState.init] using hwf)
  exact ⟨st, hst, by rw [fromFile_eq, hst]; rfl⟩

end wf


/-! ## The written form of an `f` line -/

theorem digit_not_space {c : Char} (h : c.isDigit = true) : isspace c = false := by
  simp only [Char.isDigit, Bool.and_eq_true, decide_eq_true_eq] at h
  simp only [isspace, Bool.or_eq_false_iff, decide_eq_false_iff_not]
  refine ⟨⟨⟨⟨⟨?_, ?_⟩, ?_⟩, ?_⟩, ?_⟩, ?_⟩ <;>
  · rintro rfl
    revert h
    decide

theorem digit_ne {c d : Char} (h : c.isDigit = true) (hd : d.isDigit = false) : c ≠ d := by
  rintro rfl
  rw [h] at hd
  exact absurd hd (by simp)

theorem scanDigits_append (ds rest : List Char) (hds : ∀ c ∈ ds, c.isDigit = true)
    (hrest : ∀ c, rest.head? = some c → c.isDigit = false) (acc : Nat) :
    scanDigits (ds ++ rest) acc =
      (Nat.ofDigits 10 ((ds.map (fun c => c.toNat - 48)).reverse ++ [acc]), rest) := by
  induction ds generalizing acc with
  | nil =>
    cases rest with
    | nil => simp [scanDigits, Nat.ofDigits]
    | cons r rs =>
      have := hrest r rfl
      simp [scanDigits, this, Nat.ofDigits]
  | cons d ds ih =>
    have hd : d.isDigit = true := hds d (List.mem_cons_self _ _)
    have ih2 := ih (fun c hc => hds c (List.mem_cons_of_mem _ hc)) (acc * 10 + (d.toNat - 48))
    have hstep : scanDigits (d :: ds ++ rest) acc
        = scanDigits (ds ++ rest) (acc * 10 + (d.toNat - 48)) := by
      simp [scanDigits, hd]
    rw [hstep, ih2]
    simp [Nat.ofDigits_append, Nat.ofDigits_singleton, Nat.ofDigits_cons]
    ring


theorem scanInt_numeral (ds rest : List Char) (hds : IsNumeral ds)
    (hrest : ∀ c, rest.head? = some c → c.isDigit = false) :
    scanInt (ds ++ rest) = some ((numeralValue ds : Int), rest) := by
  obtain ⟨hne, hdig⟩ := hds
  cases ds with
  | nil => exact absurd rfl hne
  | cons d ds =>
    have hd : d.isDigit = true := hdig d (List.mem_cons_self _ _)
    have hsp : isspace d = false := digit_not_space hd
    have hminus : d ≠ '-' := digit_ne hd (by decide)
    have hplus : d ≠ '+' := digit_ne hd (by decide)
    have hdrop : (d :: ds ++ rest).dropWhile isspace = d :: (ds ++ rest) := by
      simp [List.dropWhile, hsp]
    have hsign : scanSign (d :: (ds ++ rest)) = (false, d :: (ds ++ rest)) := by
      simp [scanSign, hminus, hplus]
    have hscan := scanDigits_append (d :: ds) rest hdig hrest 0
    simp only [List.cons_append] at hscan
    simp only [scanInt, hdrop, hsign, hd, if_true, hscan]
    simp [numeralValue, Nat.ofDigits_append, Nat.ofDigits_cons, Nat.ofDigits_singleton]

theorem mem_groupText {p t n : List Char} (hp : IsNumeral p) (ht : IsNumeral t)
    (hn : IsNumeral n) {c : Char} (hc : c ∈ groupText p t n) : c.isDigit = true ∨ c = '/' := by
  simp only [groupText, List.mem_append, List.mem_cons] at hc
  rcases hc with h | h | h | h | h
  · exact Or.inl (hp.2 c h)
  · exact Or.inr h
  · exact Or.inl (ht.2 c h)
  · exact Or.inr h
  · exact Or.inl (hn.2 c h)

theorem sscanf_groupText (p t n : List Char) (hp : IsNumeral p) (ht : IsNumeral t)
    (hn : IsNumeral n) (hpr : numeralValue p ≤ 2147483647) (htr : numeralValue t ≤ 2147483647)
    (hnr : numeralValue n ≤ 2147483647) (v0 t0 n0 : Option Int) :
    sscanf (groupText p t n) v0 t0 n0 =
      some (some (numeralValue p : Int), some (numeralValue t : Int),
            some (numeralValue n : Int)) := by
  have hnul : (groupText p t n).takeWhile (fun c => c ≠ '\x00') = groupText p t n := by
    rw [List.takeWhile_eq_self_iff]
    intro c hc
    rcases mem_groupText hp ht hn hc with h | h
    · simpa using digit_ne h (by decide)
    · subst h; decide
  have hslash : ∀ (r : List Char) (c : Char), ('/' :: r).head? = some c → c.isDigit = false := by
    intro r c hc
    simp only [List.head?_cons, Option.some.injEq] at hc
    subst hc
    decide
  have h1 := scanInt_numeral p ('/' :: (t ++ '/' :: n)) hp (hslash _)
  have h2 := scanInt_numeral t ('/' :: n) ht (hslash _)
  have h3 := scanInt_numeral n [] hn (by simp)
  rw [List.append_nil] at h3
  have r1 : inIntRange (numeralValue p : Int) = true := by
    simp only [inIntRange, Bool.and_eq_true, decide_eq_true_eq]; omega
  have r2 : inIntRange (numeralValue t : Int) = true := by
    simp only [inIntRange, Bool.and_eq_true, decide_eq_true_eq]; omega
  have r3 : inIntRange (numeralValue n : Int) = true := by
    simp only [inIntRange, Bool.and_eq_true, decide_eq_true_eq]; omega
  unfold sscanf
  rw [hnul]
  simp only [groupText] at h1 ⊢
  simp only [h1, r1, if_true, h2, r2, h3, r3]

theorem splitDelim_append_delim (d : Char) (a rest : List Char) (ha : d ∉ a) :
    splitDelim d (a ++ d :: rest) = (a, some rest) := by
  induction a with
  | nil => simp [splitDelim]
  | cons c cs ih =>
    have hc : c ≠ d := fun h => ha (h ▸ List.mem_cons_self _ _)
    have ih2 := ih (fun h => ha (List.mem_cons_of_mem _ h))
    simp [splitDelim, hc, ih2]

theorem splitDelim_no_delim (d : Char) (a : List Char) (ha : d ∉ a) :
    splitDelim d a = (a, none) := by
  induction a with
  | nil => simp [splitDelim]
  | cons c cs ih =>
    have hc : c ≠ d := fun h => ha (h ▸ List.mem_cons_self _ _)
    have ih2 := ih (fun h => ha (List.mem_cons_of_mem _ h))
    simp [splitDelim, hc, ih2]

theorem space_not_mem_groupText {p t n : List Char} (hp : IsNumeral p) (ht : IsNumeral t)
    (hn : IsNumeral n) : ' ' ∉ groupText p t n := by
  intro hc
  rcases mem_groupText hp ht hn hc with h | h
  · exact absurd h (by decide)
  · exact absurd h (by decide)


theorem IsGroup.sscanf {g : List Char} {p t n : Nat} (h : IsGroup g p t n)
    (v0 t0 n0 : Option Int) :
    EydenTracer.sscanf g v0 t0 n0 = some (some (p : Int), some (t : Int), some (n : Int)) := by
  obtain ⟨dp, dt, dn, hp, ht, hn, rfl, rfl, rfl, rfl, r1, r2, r3⟩ := h
  exact sscanf_groupText dp dt dn hp ht hn r1 r2 r3 v0 t0 n0

theorem IsGroup.no_space {g : List Char} {p t n : Nat} (h : IsGroup g p t n) : ' ' ∉ g := by
  obtain ⟨dp, dt, dn, hp, ht, hn, rfl, -⟩ := h
  exact space_not_mem_groupText hp ht hn

theorem IsGroup.ne_nil {g : List Char} {p t n : Nat} (h : IsGroup g p t n) : g ≠ [] := by
  obtain ⟨dp, dt, dn, hp, ht, hn, rfl, -⟩ := h
  cases dp with
  | nil => exact absurd rfl hp.1
  | cons d ds => simp [groupText]

theorem leadingToken_faceText (g1 g2 g3 : List Char) :
    leadingToken (faceText g1 g2 g3)
      = (IStream.ofText (g1 ++ ' ' :: (g2 ++ ' ' :: g3)), ['f']) := by
  simp [leadingToken, faceText, getline, IStream.good, IStream.ofText, splitDelim]

theorem readGroup_ofText_delim {g rest line : List Char} {p t n : Nat} (h : IsGroup g p t n)
    (v0 t0 n0 : Option Int) :
    readGroup (IStream.ofText (g ++ ' ' :: rest)) line v0 t0 n0
      = some (IStream.ofText rest, g, (p : Int), (t : Int), (n : Int)) := by
  have hg : getline (IStream.ofText (g ++ ' ' :: rest)) line ' ' = (IStream.ofText rest, g) := by
    simp [getline, IStream.good, IStream.ofText, splitDelim_append_delim ' ' g rest h.no_space]
  simp [readGroup, hg, h.sscanf]

theorem readGroup_ofText_last {g line : List Char} {p t n : Nat} (h : IsGroup g p t n)
    (v0 t0 n0 : Option Int) :
    readGroup (IStream.ofText g) line v0 t0 n0
      = some (⟨[], true, false⟩, g, (p : Int), (t : Int), (n : Int)) := by
  have hg : getline (IStream.ofText g) line ' ' = (⟨[], true, false⟩, g) := by
    simp [getline, IStream.good, IStream.ofText, splitDelim_no_delim ' ' g h.no_space, h.ne_nil]
  simp [readGroup, hg, h.sscanf]

/-- The constructor reads from the line `f p1/t1/n1 p2/t2/n2 p3/t3/n3` the numbers it
writes, each lessened by one. -/
theorem faceIndices_faceText {g1 g2 g3 : List Char} {p1 t1 n1 p2 t2 n2 p3 t3 n3 : Nat}
    (h1 : IsGroup g1 p1 t1 n1) (h2 : IsGroup g2 p2 t2 n2) (h3 : IsGroup g3 p3 t3 n3) :
    directive (faceText g1 g2 g3) = ['f'] ∧
    faceIndices (leadingToken (faceText g1 g2 g3)).1 (leadingToken (faceText g1 g2 g3)).2 =
      some (⟨(p1 : Int) - 1, (p2 : Int) - 1, (p3 : Int) - 1⟩,
            ⟨(t1 : Int) - 1, (t2 : Int) - 1, (t3 : Int) - 1⟩,
            ⟨(n1 : Int) - 1, (n2 : Int) - 1, (n3 : Int) - 1⟩) := by
  refine ⟨by simp [directive, leadingToken_faceText], ?_⟩
  rw [leadingToken_faceText]
  simp only [faceIndices, readGroup_ofText_delim h1, readGroup_ofText_delim h2,
    readGroup_ofText_last h3]

section claims
variable [Zero F] [One F] [Sub F] (numGet : List Char → Option F × List Char) (sh : Sh)

theorem parseLines_eraseIdx (l : List Char)
    (hl : ∀ st : ParseState F Sh, processLine numGet sh st l = some st) :
    ∀ (lines : List (List Char)) (k : Nat) (st : ParseState F Sh), lines[k]? = some l →
      parseLines numGet sh st (lines.eraseIdx k) = parseLines numGet sh st lines
  | [], k, st, h => by simp at h
  | x :: xs, 0, st, h => by
    simp only [List.getElem?_cons_zero, Option.some.injEq] at h
    subst h
    simp [parseLines, hl]
  | x :: xs, k + 1, st, h => by
    simp only [List.getElem?_cons_succ] at h
    simp only [List.eraseIdx_cons_succ, parseLines]
    cases processLine numGet sh st x with
    | none => rfl
    | some st1 => exact parseLines_eraseIdx l hl xs k st1 h

/-- The primitive of an `f` line of a file whose `f` lines are read in range, in terms
of the numbers the constructor reads from the line. -/
theorem fromFile_kth_face (content : List Char)
    (heap : Heap (CPrimTriangle F Sh)) (hwf : ReadsInRange content)
    (pre post : List (List Char)) (l : List Char)
    (hsplit : fileLines content = pre ++ l :: post) (hf : directive l = ['f']) :
    ∃ (s : CSolid F) (heap' : Heap (CPrimTriangle F Sh)) (p t n : Vec3i)
      (tri : CPrimTriangle F Sh),
      CSolid.fromFile numGet sh (some content) heap = Outcome.done (s, heap') ∧
      faceIndices (leadingToken l).1 (leadingToken l).2 =
        some (⟨p.x - 1, p.y - 1, p.z - 1⟩, ⟨t.x - 1, t.y - 1, t.z - 1⟩,
              ⟨n.x - 1, n.y - 1, n.z - 1⟩) ∧
      (s.m_vpPrims[countFaces pre]?).bind (fun h => heap'[h]?) = some tri ∧
      tri.pShader = sh ∧
      vectorAt (positionsOf numGet pre) (p.x - 1) = some tri.a ∧
      vectorAt (positionsOf numGet pre) (p.y - 1) = some tri.b ∧
      vectorAt (positionsOf numGet pre) (p.z - 1) = some tri.c ∧
      vectorAt (texturesOf numGet pre) (t.x - 1) = some tri.ta ∧
      vectorAt (texturesOf numGet pre) (t.y - 1) = some tri.tb ∧
      vectorAt (texturesOf numGet pre) (t.z - 1) = some tri.tc ∧
      vectorAt (normalsOf numGet pre) (n.x - 1) = some tri.na ∧
      vectorAt (normalsOf numGet pre) (n.y - 1) = some tri.nb ∧
      vectorAt (normalsOf numGet pre) (n.z - 1) = some tri.nc := by
  obtain ⟨stf, hparse, hfile⟩ := fromFile_readsInRange numGet sh content heap hwf
  rw [hsplit, parseLines_append] at hparse
  rcases hpre : parseLines numGet sh (ParseState.init heap) pre with _ | st1
  · simp [hpre] at hparse
  simp only [hpre, Option.some_bind, parseLines] at hparse
  rw [processLine_f numGet sh st1 l hf] at hparse
  rcases hfi : faceIndices (leadingToken l).1 (leadingToken l).2 with _ | ⟨V, T, N⟩
  · simp [hfi] at hparse
  rcases hmt : makeTriangle sh st1 V T N with _ | tri
  · simp [hfi, hmt] at hparse
  simp only [hfi, hmt, Option.some_bind, Option.map_some'] at hparse
  obtain ⟨a1, a2, a3, -, a5, tris1, a6, a7⟩ := parseLines_state numGet sh pre _ _ hpre
  obtain ⟨-, -, -, -, b5, tris2, b6, -⟩ := parseLines_state numGet sh post _ _ hparse
  simp only [ParseState.init, CSolid.default, List.nil_append] at a1 a2 a3 a5 a6
  simp only [CSolid.add, a5] at b5
  simp only [a6] at b6
  obtain ⟨c0, c1, c2, c3, c4, c5, c6, c7, c8, c9⟩ := (makeTriangle_eq_some sh st1 V T N tri).1 hmt
  rw [a1] at c1 c2 c3
  rw [a2] at c4 c5 c6
  rw [a3] at c7 c8 c9
  refine ⟨stf.solid, stf.heap, ⟨V.x + 1, V.y + 1, V.z + 1⟩, ⟨T.x + 1, T.y + 1, T.z + 1⟩,
    ⟨N.x + 1, N.y + 1, N.z + 1⟩, tri, hfile, ?_, ?_, c0, ?_, ?_, ?_, ?_, ?_, ?_, ?_, ?_, ?_⟩
  · simp
  · have hidx : stf.solid.m_vpPrims[countFaces pre]? = some (heap.length + countFaces pre) := by
      rw [b5, List.append_assoc, List.getElem?_append_right (by simp)]
      simp [a6, a7]
    rw [hidx, Option.some_bind, b6, ← a7, List.append_assoc, ← List.length_append,
      List.getElem?_append_right (Nat.le_refl _)]
    simp
  all_goals simpa using ‹_›

/-- On a file whose `f` lines are read in range the constructor returns, and for every
line `l` that it takes for an `f` line, with `pre` the lines before it, the primitive
at position `countFaces pre` of the solid is a triangle bound to the shader passed to
the constructor whose three positions, texture coordinates and normals are the entries
`p - 1`, `t - 1`, `n - 1` of the tables of the `v`, `vt` and `vn` lines of `pre` in
file order, `p`, `t`, `n` being the numbers the constructor reads from `l`. When `l` is
written with single spaces, `f p1/t1/n1 p2/t2/n2 p3/t3/n3`, these are the numbers
written; for a line written with other white space they need not be, as the file
`twoSpacesObj` shows. -/
theorem fromFile_kth_face_read (content : List Char)
    (heap : Heap (CPrimTriangle F Sh)) (hwf : ReadsInRange content)
    (pre post : List (List Char)) (l : List Char)
    (hsplit : fileLines content = pre ++ l :: post) (hf : directive l = ['f']) :
    ∃ (s : CSolid F) (heap' : Heap (CPrimTriangle F Sh)) (p t n : Vec3i)
      (tri : CPrimTriangle F Sh),
      CSolid.fromFile numGet sh (some content) heap = Outcome.done (s, heap') ∧
      faceIndices (leadingToken l).1 (leadingToken l).2 =
        some (⟨p.x - 1, p.y - 1, p.z - 1⟩, ⟨t.x - 1, t.y - 1, t.z - 1⟩,
              ⟨n.x - 1, n.y - 1, n.z - 1⟩) ∧
      (∀ (g1 g2 g3 : List Char) (p1 t1 n1 p2 t2 n2 p3 t3 n3 : Nat),
        l = faceText g1 g2 g3 → IsGroup g1 p1 t1 n1 → IsGroup g2 p2 t2 n2 →
        IsGroup g3 p3 t3 n3 →
        p = ⟨p1, p2, p3⟩ ∧ t = ⟨t1, t2, t3⟩ ∧ n = ⟨n1, n2, n3⟩) ∧
      (s.m_vpPrims[countFaces pre]?).bind (fun h => heap'[h]?) = some tri ∧
      tri.pShader = sh ∧
      vectorAt (positionsOf numGet pre) (p.x - 1) = some tri.a ∧
      vectorAt (positionsOf numGet pre) (p.y - 1) = some tri.b ∧
      vectorAt (positionsOf numGet pre) (p.z - 1) = some tri.c ∧
      vectorAt (texturesOf numGet pre) (t.x - 1) = some tri.ta ∧
      vectorAt (texturesOf numGet pre) (t.y - 1) = some tri.tb ∧
      vectorAt (texturesOf numGet pre) (t.z - 1) = some tri.tc ∧
      vectorAt (normalsOf numGet pre) (n.x - 1) = some tri.na ∧
      vectorAt (normalsOf numGet pre) (n.y - 1) = some tri.nb ∧
      vectorAt (normalsOf numGet pre) (n.z - 1) = some tri.nc := by
  obtain ⟨s, heap', p, t, n, tri, h1, h2, h3⟩ :=
    fromFile_kth_face numGet sh content heap hwf pre post l hsplit hf
  refine ⟨s, heap', p, t, n, tri, h1, h2, ?_, h3⟩
  intro g1 g2 g3 p1 t1 n1 p2 t2 n2 p3 t3 n3 hl hg1 hg2 hg3
  subst hl
  have hw := (faceIndices_faceText hg1 hg2 hg3).2
  rw [h2] at hw
  simp only [Option.some.injEq, Prod.mk.injEq, Vec3.mk.injEq, sub_left_inj] at hw
  obtain ⟨⟨a1, a2, a3⟩, ⟨b1, b2, b3⟩, c1, c2, c3⟩ := hw
  exact ⟨(Vec3.eq_iff _ _).2 ⟨a1, a2, a3⟩, (Vec3.eq_iff _ _).2 ⟨b1, b2, b3⟩,
    (Vec3.eq_iff _ _).2 ⟨c1, c2, c3⟩⟩

/-- On a file whose `f` lines are read in range the constructor returns a solid whose
number of primitives is the number of lines that the constructor takes for `f` lines:
those that start with `f` and a single space, or are `f` alone. -/
theorem fromFile_countFaces (content : List Char)
    (heap : Heap (CPrimTriangle F Sh)) (hwf : ReadsInRange content) :
    ∃ (s : CSolid F) (heap' : Heap (CPrimTriangle F Sh)),
      CSolid.fromFile numGet sh (some content) heap = Outcome.done (s, heap') ∧
      s.getPrims.length = countFaces (fileLines content) := by
  obtain ⟨stf, hparse, hfile⟩ := fromFile_readsInRange numGet sh content heap hwf
  obtain ⟨-, -, -, -, a5, -⟩ := parseLines_state numGet sh _ _ _ hparse
  exact ⟨stf.solid, stf.heap, hfile, by simp [CSolid.getPrims, a5, ParseState.init, CSolid.default]⟩

/-- Claim C7: a line whose leading token is none of `v`, `vt`, `vn`, `f` leaves the
tables, the solid and the store as they are, and the constructor gives the same
result on the file and on the file without that line. -/
theorem C7_other_lines_are_skipped (content content' : List Char)
    (heap : Heap (CPrimTriangle F Sh)) (k : Nat) (l : List Char)
    (hk : (fileLines content)[k]? = some l)
    (hdir : directive l ≠ ['v'] ∧ directive l ≠ ['v', 't'] ∧ directive l ≠ ['v', 'n'] ∧
      directive l ≠ ['f'])
    (hrem : fileLines content' = (fileLines content).eraseIdx k) :
    (∀ st : ParseState F Sh, processLine numGet sh st l = some st) ∧
    CSolid.fromFile numGet sh (some content') heap
      = CSolid.fromFile numGet sh (some content) heap := by
  have hl : ∀ st : ParseState F Sh, processLine numGet sh st l = some st :=
    fun st => processLine_other numGet sh st l hdir.1 hdir.2.1 hdir.2.2.1 hdir.2.2.2
  refine ⟨hl, ?_⟩
  rw [fromFile_eq, fromFile_eq, hrem, parseLines_eraseIdx numGet sh l hl _ k _ hk]

/-- Claim C8: when the file cannot be opened the constructor returns a solid with no
primitive, and allocates none. -/
theorem C8_unopened_file_gives_empty_solid (heap : Heap (CPrimTriangle F Sh)) :
    ∃ s : CSolid F, CSolid.fromFile numGet sh none heap = Outcome.done (s, heap) ∧
      s.getPrims = [] :=
  ⟨CSolid.default, rfl, rfl⟩

end claims


theorem isGroup_211 : IsGroup "2/1/1".toList 2 1 1 :=
  ⟨"2".toList, "1".toList, "1".toList, by decide, by decide, by decide, by decide,
    by decide, by decide, by decide, by decide, by decide, by decide⟩

theorem isGroup_411 : IsGroup "4/1/1".toList 4 1 1 :=
  ⟨"4".toList, "1".toList, "1".toList, by decide, by decide, by decide, by decide,
    by decide, by decide, by decide, by decide, by decide, by decide⟩

theorem isGroup_311 : IsGroup "3/1/1".toList 3 1 1 :=
  ⟨"3".toList, "1".toList, "1".toList, by decide, by decide, by decide, by decide,
    by decide, by decide, by decide, by decide, by decide, by decide⟩

/-- The second `f` line of `exampleObj`, which is written `f 2/1/1 4/1/1 3/1/1` with
single spaces, gives the second primitive, built from the entries 1, 3, 2 of the
position table and the entries 0 of the other two tables. -/
theorem fromFile_kth_face_read_exampleObj :
    ∃ (s : CSolid ℚ) (heap' : Heap (CPrimTriangle ℚ Nat)) (tri : CPrimTriangle ℚ Nat),
      CSolid.fromFile readDecimal 7 (some exampleObj) [] = Outcome.done (s, heap') ∧
      (s.m_vpPrims[1]?).bind (fun h => heap'[h]?) = some tri ∧
      tri.pShader = 7 ∧
      vectorAt (positionsOf readDecimal ((fileLines exampleObj).take 9)) 1 = some tri.a ∧
      vectorAt (positionsOf readDecimal ((fileLines exampleObj).take 9)) 3 = some tri.b ∧
      vectorAt (positionsOf readDecimal ((fileLines exampleObj).take 9)) 2 = some tri.c ∧
      vectorAt (texturesOf readDecimal ((fileLines exampleObj).take 9)) 0 = some tri.ta ∧
      vectorAt (normalsOf readDecimal ((fileLines exampleObj).take 9)) 0 = some tri.na := by
  obtain ⟨s, heap', p, t, n, tri, h1, -, h3, h4, h5, a, b, c, ta, -, -, na, -, -⟩ :=
    fromFile_kth_face_read readDecimal 7 exampleObj [] (by decide)
      ((fileLines exampleObj).take 9) [] (faceText "2/1/1".toList "4/1/1".toList "3/1/1".toList)
      (by decide) (by decide)
  obtain ⟨rfl, rfl, rfl⟩ := h3 _ _ _ _ _ _ _ _ _ _ _ _ rfl isGroup_211 isGroup_411 isGroup_311
  have hk : countFaces ((fileLines exampleObj).take 9) = 1 := by decide
  rw [hk] at h4
  exact ⟨s, heap', tri, h1, h4, h5, a, b, c, ta, na⟩

/-- The text `exampleObj` has two `f` lines, both written with single spaces, and
gives two primitives. -/
theorem fromFile_countFaces_exampleObj :
    ∃ (s : CSolid ℚ) (heap' : Heap (CPrimTriangle ℚ Nat)),
      CSolid.fromFile readDecimal 7 (some exampleObj) [] = Outcome.done (s, heap') ∧
      s.getPrims.length = 2 :=
  fromFile_countFaces readDecimal 7 exampleObj [] (by decide)

/-- Claim C7 at a concrete input: the line `mtllib x` of `exampleObj`. -/
theorem C7_witness :
    CSolid.fromFile readDecimal 7 (some exampleObjShort) []
      = CSolid.fromFile readDecimal 7 (some exampleObj) [] :=
  (C7_other_lines_are_skipped readDecimal 7 exampleObj exampleObjShort [] 8 "mtllib x".toList
    (by decide) (by decide) (by decide)).2

/-! # The second group of claims -/

/-! ## `add` -/

theorem addSolid_foldl (prims : List Nat) (s : CSolid F) :
    prims.foldl (fun acc pPrim => ({ acc with m_vpPrims := acc.m_vpPrims ++ [pPrim] } : CSolid F)) s
      = ⟨s.m_pivot, s.m_vpPrims ++ prims⟩ := by
  induction prims generalizing s with
  | nil => simp
  | cons x xs ih => simp [List.foldl, ih]

theorem addSolid_eq (s A : CSolid F) :
    s.addSolid A = ⟨s.m_pivot, s.m_vpPrims ++ A.m_vpPrims⟩ :=
  addSolid_foldl A.m_vpPrims s

theorem addCalls_pivot (calls : List (AddCall F)) (s : CSolid F) :
    (s.addCalls calls).m_pivot = s.m_pivot := by
  induction calls generalizing s with
  | nil => rfl
  | cons c cs ih =>
    cases c with
    | prim h => simp only [CSolid.addCalls]; rw [ih]; rfl
    | solid A => simp only [CSolid.addCalls]; rw [ih, addSolid_eq]

theorem World.addSolid_of_ne (w : World F P) (i j : Nat) (S A : CSolid F)
    (hS : w.solids[i]? = some S) (hA : w.solids[j]? = some A) (hij : i ≠ j) :
    w.addSolid i j = some { w with solids := w.solids.set i (S.addSolid A) } := by
  simp [World.addSolid, hS, hA, hij]

/-- Claim C11: for a solid `S` and another solid `A` of the program (`i ≠ j`),
`S.add(A)` makes the list of `S` its old list followed by the list of `A` in the order
of `A`, the length being the sum; the entries appended are the handles `A` holds, the
store of primitives is not touched, `A` and every solid other than `S` are left as
they were; and adding `A` and then `B` to a solid just made by `CSolid(org)` gives the
list of `A` followed by the list of `B`. -/
theorem C11_add_solid_appends (w : World F P) (i j : Nat) (S A : CSolid F)
    (hS : w.solids[i]? = some S) (hA : w.solids[j]? = some A) (hij : i ≠ j) :
    (S.addSolid A).getPrims = S.getPrims ++ A.getPrims ∧
    (S.addSolid A).getPrims.length = S.getPrims.length + A.getPrims.length ∧
    (∃ w' : World F P, w.addSolid i j = some w' ∧
      w'.solids[i]? = some (S.addSolid A) ∧
      w'.solids[j]? = some A ∧
      (∀ k, k ≠ i → w'.solids[k]? = w.solids[k]?) ∧
      w'.heap = w.heap) ∧
    (∀ (org : Vec3f F) (B : CSolid F),
      (((CSolid.mk_org org).addSolid A).addSolid B).getPrims = A.getPrims ++ B.getPrims) := by
  have hlt : i < w.solids.length := by
    by_contra hge
    rw [List.getElem?_eq_none (by omega)] at hS
    exact absurd hS (by simp)
  refine ⟨by simp [addSolid_eq, CSolid.getPrims], by simp [addSolid_eq, CSolid.getPrims], ?_, ?_⟩
  · refine ⟨_, World.addSolid_of_ne w i j S A hS hA hij, ?_, ?_, ?_, rfl⟩
    · simp [List.getElem?_set_self hlt]
    · simp [List.getElem?_set_ne hij, hA]
    · intro k hk
      simp [List.getElem?_set_ne (Ne.symm hk)]
  · intro org B
    simp [addSolid_eq, CSolid.getPrims, CSolid.mk_org]

/-- Claim C11 at a concrete input: a leaf with the primitives `0, 1` receives a leaf
with the primitives `2, 3, 1`. -/
theorem C11_witness :
    (exampleLeafA.addSolid exampleLeafB).getPrims = [0, 1, 2, 3, 1] ∧
    ∃ w' : World ℤ (CPrimTriangle ℤ Nat),
      World.addSolid ⟨[exampleTriangle], [exampleLeafA, exampleLeafB]⟩ 0 1 = some w' ∧
      w'.solids[1]? = some exampleLeafB ∧ w'.heap = [exampleTriangle] :=
  have h := C11_add_solid_appends (⟨[exampleTriangle], [exampleLeafA, exampleLeafB]⟩ :
    World ℤ (CPrimTriangle ℤ Nat)) 0 1 exampleLeafA exampleLeafB rfl rfl (by decide)
  ⟨h.1, h.2.2.1.imp fun _ hw => ⟨hw.1, hw.2.2.1, hw.2.2.2.2⟩⟩

/-- Claim C15: after `CSolid(org)` the pivot is `org`; it is still `org` after any
sequence of calls of `add`, with primitives or with solids of any pivot; and
`add(pSolid)` leaves the pivot of the solid that is added as it was. -/
theorem C15_pivot_independent (org : Vec3f F) (calls : List (AddCall F)) :
    (CSolid.mk_org org).getPivot = org ∧
    ((CSolid.mk_org org).addCalls calls).getPivot = org ∧
    (∀ (s : CSolid F) (pPrim : Nat), (s.add pPrim).getPivot = s.getPivot) ∧
    (∀ s A : CSolid F, (s.addSolid A).getPivot = s.getPivot) ∧
    (∀ (w w' : World F P) (i j : Nat) (A : CSolid F), w.solids[j]? = some A → i ≠ j →
      w.addSolid i j = some w' →
      ∃ A' : CSolid F, w'.solids[j]? = some A' ∧ A'.getPivot = A.getPivot) := by
  refine ⟨rfl, ?_, fun _ _ => rfl, ?_, ?_⟩
  · simp [CSolid.getPivot, addCalls_pivot, CSolid.mk_org]
  · intro s A
    simp [CSolid.getPivot, addSolid_eq]
  · intro w w' i j A hA hij hw
    refine ⟨A, ?_, rfl⟩
    unfold World.addSolid at hw
    rw [hA] at hw
    cases hS : w.solids[i]? with
    | none => simp [hS] at hw
    | some S =>
      simp only [hS, hij, false_and, if_false, Option.some.injEq] at hw
      subst hw
      simp [List.getElem?_set_ne hij, hA]

/-! ## `transform` and the pivot of a parsed solid -/

theorem transformAll_nil (pt : Mat F → P → P) (t : Mat F) (heap : Heap P) :
    transformAll pt t [] heap = heap := rfl

theorem transform_length [Ring F] (pt : Mat F → P → P) (M : Mat F) (s : CSolid F)
    (heap : Heap P) : (CSolid.transform pt M s heap).2.length = heap.length := by
  simp [CSolid.transform, transformAll_length]

/-- Claim C17: `transform` returns for every matrix, solid and store; the list of the
solid is the same list (same handles, same order, same length), the store keeps its
length and every cell the solid does not list; and on a solid with an empty list the
store is returned as it is and the solid only has its pivot moved by the translation
column of the matrix. -/
theorem C17_transform_frame [Ring F] (pt : Mat F → P → P) (M : Mat F) (s : CSolid F)
    (heap : Heap P) :
    (CSolid.transform pt M s heap).1.getPrims = s.getPrims ∧
    (CSolid.transform pt M s heap).1.getPrims.length = s.getPrims.length ∧
    (CSolid.transform pt M s heap).2.length = heap.length ∧
    (∀ h, h ∉ s.m_vpPrims → (CSolid.transform pt M s heap).2[h]? = heap[h]?) ∧
    (s.m_vpPrims = [] →
      CSolid.transform pt M s heap = (⟨s.m_pivot + Mat.translation M, []⟩, heap)) := by
  refine ⟨rfl, rfl, transform_length pt M s heap, ?_, ?_⟩
  · intro h hh
    rw [transform_getElem?, List.count_eq_zero_of_not_mem hh]
    simp
  · intro hnil
    cases s with
    | mk p prims =>
      simp only at hnil
      subst hnil
      simp [CSolid.transform, transformAll_nil, updatePivot_eq]

/-- Claim C17 at a concrete input: a solid with no primitive and pivot `(1, 2, 3)`. -/
theorem C17_witness :
    CSolid.transform CPrimTriangle.transform exampleAffine ⟨⟨1, 2, 3⟩, []⟩ [exampleTriangle]
      = (⟨⟨6, 8, 10⟩, []⟩, [exampleTriangle]) :=
  (C17_transform_frame CPrimTriangle.transform exampleAffine ⟨⟨1, 2, 3⟩, []⟩
    [exampleTriangle]).2.2.2.2 rfl

section c13
variable [Zero F] [One F] [Sub F] (numGet : List Char → Option F × List Char) (sh : Sh)

/-- Claim C13: whatever the file (not opened, or of any content), a solid that the
constructor returns has the pivot `(0, 0, 0)`, which `getPivot` gives back; the
constructor never runs out of turns, and it does return a solid when the file cannot
be opened and when every `f` line of the file is read in range (`ReadsInRange`). -/
theorem C13_pivot_defaults_to_origin (file : Option (List Char))
    (heap : Heap (CPrimTriangle F Sh)) :
    (∀ (s : CSolid F) (heap' : Heap (CPrimTriangle F Sh)),
      CSolid.fromFile numGet sh file heap = Outcome.done (s, heap') →
        s.getPivot = ⟨0, 0, 0⟩) ∧
    CSolid.fromFile numGet sh file heap ≠ Outcome.outOfFuel ∧
    ((file = none ∨ ∃ content, file = some content ∧ ReadsInRange content) →
      ∃ (s : CSolid F) (heap' : Heap (CPrimTriangle F Sh)),
        CSolid.fromFile numGet sh file heap = Outcome.done (s, heap') ∧
          s.getPivot = ⟨0, 0, 0⟩) := by
  have hdone : ∀ (s : CSolid F) (heap' : Heap (CPrimTriangle F Sh)),
      CSolid.fromFile numGet sh file heap = Outcome.done (s, heap') →
        s.getPivot = ⟨0, 0, 0⟩ := by
    intro s heap' h
    cases file with
    | none =>
      simp only [CSolid.fromFile, Outcome.done.injEq, Prod.mk.injEq] at h
      rw [← h.1]
      rfl
    | some content =>
      rw [fromFile_eq] at h
      cases hp : parseLines numGet sh (ParseState.init heap) (fileLines content) with
      | none => simp [hp, Outcome.ofOption] at h
      | some st =>
        simp only [hp, Option.map_some', Outcome.ofOption, Outcome.done.injEq,
          Prod.mk.injEq] at h
        obtain ⟨-, -, -, h4, -⟩ := parseLines_state numGet sh _ _ _ hp
        rw [← h.1, CSolid.getPivot, h4]
        rfl
  refine ⟨hdone, ?_, ?_⟩
  · cases file with
    | none => simp [CSolid.fromFile]
    | some content =>
      rw [fromFile_eq]
      cases parseLines numGet sh (ParseState.init heap) (fileLines content) <;>
        simp [Outcome.ofOption]
  · rintro (rfl | ⟨content, rfl, hwf⟩)
    · exact ⟨CSolid.default, heap, rfl, rfl⟩
    · obtain ⟨st, -, hfile⟩ := fromFile_readsInRange numGet sh content heap hwf
      exact ⟨st.solid, st.heap, hfile, hdone _ _ hfile⟩

end c13

/-! ## Concrete files -/

/-- The first five lines of `sixLineObj`. -/
theorem fileLines_sixLineObj :
    fileLines sixLineObj =
      ["v 0 0 0".toList, "v 1 0 0".toList, "v 0 1 0".toList, "vn 0 0 1".toList,
       "vt 0 0".toList] ++ ["f 1/1/1 2/1/1 3/1/1".toList] := by
  decide

theorem fileLines_sixLineObj_newline :
    fileLines (sixLineObj ++ ['\n']) = fileLines sixLineObj := by
  decide

theorem fileLines_twoSpacesObj :
    fileLines twoSpacesObj =
      ["v 0 0 0".toList, "v 1 0 0".toList, "v 0 1 0".toList, "vn 0 0 1".toList,
       "vt 0 0".toList] ++ ["f 1/1/1  2/1/1 3/1/1".toList] := by
  decide

theorem fileLines_tabObj :
    fileLines tabObj =
      ["v 0 0 0".toList, "v 1 0 0".toList, "v 0 1 0".toList, "vn 0 0 1".toList,
       "vt 0 0".toList] ++ ["f 1/1/1\t2/1/1 3/1/1".toList] := by
  decide

theorem fileLines_spacesAfterFObj :
    fileLines spacesAfterFObj =
      ["v 0 0 0".toList, "v 1 0 0".toList, "v 0 1 0".toList, "vn 0 0 1".toList,
       "vt 0 0".toList] ++ ["f  1/1/1 2/1/1 3/1/1".toList] := by
  decide

theorem fileLines_tabAfterFObj :
    fileLines tabAfterFObj =
      ["v 0 0 0".toList, "v 1 0 0".toList, "v 0 1 0".toList, "vn 0 0 1".toList,
       "vt 0 0".toList] ++ ["f\t1/1/1 2/1/1 3/1/1".toList] := by
  decide

/-- The position table of the first five lines of `sixLineObj`. -/
theorem positionsOf_fiveLines :
    positionsOf readDecimal
      ["v 0 0 0".toList, "v 1 0 0".toList, "v 0 1 0".toList, "vn 0 0 1".toList,
       "vt 0 0".toList] = [⟨0, 0, 0⟩, ⟨1, 0, 0⟩, ⟨0, 1, 0⟩] := by
  decide!

theorem readVec3_000 : readVec3 readDecimal (leadingToken "v 0 0 0".toList).1 = ⟨0, 0, 0⟩ := by
  decide!

theorem readVec3_100 : readVec3 readDecimal (leadingToken "v 1 0 0".toList).1 = ⟨1, 0, 0⟩ := by
  decide!

theorem readVec3_010 : readVec3 readDecimal (leadingToken "v 0 1 0".toList).1 = ⟨0, 1, 0⟩ := by
  decide!

theorem readVec3_001 : readVec3 readDecimal (leadingToken "vn 0 0 1".toList).1 = ⟨0, 0, 1⟩ := by
  decide!

theorem readVec2_00 : readVec2 readDecimal (leadingToken "vt 0 0".toList).1 = ⟨0, 0⟩ := by
  decide!

/-- The state of the constructor after the first five lines of `sixLineObj`. -/
theorem parseLines_fiveLines (sh : Sh) (heap : Heap (CPrimTriangle ℚ Sh)) :
    parseLines readDecimal sh (ParseState.init heap)
        ["v 0 0 0".toList, "v 1 0 0".toList, "v 0 1 0".toList, "vn 0 0 1".toList,
         "vt 0 0".toList] =
      some ⟨[⟨0, 0, 0⟩, ⟨1, 0, 0⟩, ⟨0, 1, 0⟩], [⟨0, 0, 1⟩], [⟨0, 1⟩], CSolid.default, heap⟩ := by
  simp only [parseLines]
  rw [processLine_v _ _ _ _ (by decide), readVec3_000]
  simp only []
  rw [processLine_v _ _ _ _ (by decide), readVec3_100]
  simp only []
  rw [processLine_v _ _ _ _ (by decide), readVec3_010]
  simp only []
  rw [processLine_vn _ _ _ _ (by decide), readVec3_001]
  simp only []
  rw [processLine_vt _ _ _ _ (by decide), readVec2_00]
  simp [ParseState.init]

/-- The result of the constructor on the five lines followed by an `f` line from which
it reads the index vectors `V`, `T`, `N`, all of them in range. -/
theorem fromFile_fiveLines_face (sh : Sh) (heap : Heap (CPrimTriangle ℚ Sh))
    (content l : List Char) (V T N : Vec3i) (tri : CPrimTriangle ℚ Sh)
    (hlines : fileLines content =
      ["v 0 0 0".toList, "v 1 0 0".toList, "v 0 1 0".toList, "vn 0 0 1".toList,
       "vt 0 0".toList] ++ [l])
    (hf : directive l = ['f'])
    (hidx : faceIndices (leadingToken l).1 (leadingToken l).2 = some (V, T, N))
    (htri : makeTriangle sh
      (⟨[⟨0, 0, 0⟩, ⟨1, 0, 0⟩, ⟨0, 1, 0⟩], [⟨0, 0, 1⟩], [⟨0, 1⟩], CSolid.default, heap⟩ :
        ParseState ℚ Sh) V T N = some tri) :
    CSolid.fromFile readDecimal sh (some content) heap =
      Outcome.done (⟨⟨0, 0, 0⟩, [heap.length]⟩, heap ++ [tri]) := by
  rw [fromFile_eq, hlines, parseLines_append, parseLines_fiveLines]
  simp only [Option.some_bind, parseLines]
  rw [processLine_f _ _ _ _ hf, hidx]
  simp only [Option.some_bind, htri, Option.map_some']
  rfl

/-- Claim C12: on the six-line file the constructor returns a solid with exactly one
primitive, a new one, whose positions are `(0,0,0)`, `(1,0,0)`, `(0,1,0)`, whose three
texture coordinates are `(0,1)` and whose three normals are `(0,0,1)`; the same file
with a newline after its last line gives the same result. -/
theorem C12_six_line_file (sh : Sh) (heap : Heap (CPrimTriangle ℚ Sh)) :
    CSolid.fromFile readDecimal sh (some sixLineObj) heap =
      Outcome.done
        (⟨⟨0, 0, 0⟩, [heap.length]⟩,
         heap ++ [⟨sh, ⟨0, 0, 0⟩, ⟨1, 0, 0⟩, ⟨0, 1, 0⟩, ⟨0, 1⟩, ⟨0, 1⟩, ⟨0, 1⟩,
                   ⟨0, 0, 1⟩, ⟨0, 0, 1⟩, ⟨0, 0, 1⟩⟩]) ∧
    CSolid.fromFile readDecimal sh (some (sixLineObj ++ ['\n'])) heap =
      CSolid.fromFile readDecimal sh (some sixLineObj) heap := by
  refine ⟨?_, by rw [fromFile_eq, fromFile_eq, fileLines_sixLineObj_newline]⟩
  exact fromFile_fiveLines_face sh heap sixLineObj "f 1/1/1 2/1/1 3/1/1".toList
    ⟨0, 1, 2⟩ ⟨0, 0, 0⟩ ⟨0, 0, 0⟩ _ fileLines_sixLineObj (by decide) (by decide)
    (by simp [makeTriangle, vectorAt])

/-- Claim C16 does not hold of the constructor: the six-line file with two spaces
between the first two groups of its `f` line gives a triangle on the positions 1, 1, 2
of the table, with a tab there a triangle on the positions 1, 3, 3, and neither is
the result for the file written with single spaces. -/
theorem C16_runs_of_white_space_change_the_primitive (sh : Sh)
    (heap : Heap (CPrimTriangle ℚ Sh)) :
    CSolid.fromFile readDecimal sh (some twoSpacesObj) heap =
      Outcome.done
        (⟨⟨0, 0, 0⟩, [heap.length]⟩,
         heap ++ [⟨sh, ⟨0, 0, 0⟩, ⟨0, 0, 0⟩, ⟨1, 0, 0⟩, ⟨0, 1⟩, ⟨0, 1⟩, ⟨0, 1⟩,
                   ⟨0, 0, 1⟩, ⟨0, 0, 1⟩, ⟨0, 0, 1⟩⟩]) ∧
    CSolid.fromFile readDecimal sh (some tabObj) heap =
      Outcome.done
        (⟨⟨0, 0, 0⟩, [heap.length]⟩,
         heap ++ [⟨sh, ⟨0, 0, 0⟩, ⟨0, 1, 0⟩, ⟨0, 1, 0⟩, ⟨0, 1⟩, ⟨0, 1⟩, ⟨0, 1⟩,
                   ⟨0, 0, 1⟩, ⟨0, 0, 1⟩, ⟨0, 0, 1⟩⟩]) ∧
    CSolid.fromFile readDecimal sh (some twoSpacesObj) heap ≠
      CSolid.fromFile readDecimal sh (some sixLineObj) heap ∧
    CSolid.fromFile readDecimal sh (some tabObj) heap ≠
      CSolid.fromFile readDecimal sh (some sixLineObj) heap := by
  have h6 := fromFile_fiveLines_face sh heap sixLineObj "f 1/1/1 2/1/1 3/1/1".toList
    ⟨0, 1, 2⟩ ⟨0, 0, 0⟩ ⟨0, 0, 0⟩
    (⟨sh, ⟨0, 0, 0⟩, ⟨1, 0, 0⟩, ⟨0, 1, 0⟩, ⟨0, 1⟩, ⟨0, 1⟩, ⟨0, 1⟩,
      ⟨0, 0, 1⟩, ⟨0, 0, 1⟩, ⟨0, 0, 1⟩⟩)
    fileLines_sixLineObj (by decide) (by decide)
    (by simp [makeTriangle, vectorAt])
  have h2 := fromFile_fiveLines_face sh heap twoSpacesObj "f 1/1/1  2/1/1 3/1/1".toList
    ⟨0, 0, 1⟩ ⟨0, 0, 0⟩ ⟨0, 0, 0⟩
    (⟨sh, ⟨0, 0, 0⟩, ⟨0, 0, 0⟩, ⟨1, 0, 0⟩, ⟨0, 1⟩, ⟨0, 1⟩, ⟨0, 1⟩,
      ⟨0, 0, 1⟩, ⟨0, 0, 1⟩, ⟨0, 0, 1⟩⟩)
    fileLines_twoSpacesObj (by decide) (by decide)
    (by simp [makeTriangle, vectorAt])
  have ht := fromFile_fiveLines_face sh heap tabObj "f 1/1/1\t2/1/1 3/1/1".toList
    ⟨0, 2, 2⟩ ⟨0, 0, 0⟩ ⟨0, 0, 0⟩
    (⟨sh, ⟨0, 0, 0⟩, ⟨0, 1, 0⟩, ⟨0, 1, 0⟩, ⟨0, 1⟩, ⟨0, 1⟩, ⟨0, 1⟩,
      ⟨0, 0, 1⟩, ⟨0, 0, 1⟩, ⟨0, 0, 1⟩⟩)
    fileLines_tabObj (by decide) (by decide)
    (by simp [makeTriangle, vectorAt])
  refine ⟨h2, ht, ?_, ?_⟩
  · rw [h2, h6]
    simp
  · rw [ht, h6]
    simp

/-- Claim C1 does not hold of the constructor. The file `twoSpacesObj` is well-formed
as written: its one `f` line, the sixth line, writes the groups `1/1/1`, `2/1/1`,
`3/1/1`, and every index is valid at that line. The second and third group written
have the position numbers 2 and 3, the entries `(1, 0, 0)` and `(0, 1, 0)` of the
table of the `v` lines before. The constructor returns a solid whose first primitive,
the one of the first `f` line, has the second position `(0, 0, 0)` and the third
position `(1, 0, 0)`: it is the triangle of the groups `1/1/1`, `1/1/1`, `2/1/1`. -/
theorem C1_written_groups_are_not_the_triangle (sh : Sh) (heap : Heap (CPrimTriangle ℚ Sh)) :
    WrittenWellFormed twoSpacesObj ∧
    (fileLines twoSpacesObj).drop 5 = ["f 1/1/1  2/1/1 3/1/1".toList] ∧
    writtenFace "f 1/1/1  2/1/1 3/1/1".toList = some ((1, 1, 1), (2, 1, 1), (3, 1, 1)) ∧
    vectorAt (positionsOf readDecimal ((fileLines twoSpacesObj).take 5)) (2 - 1)
      = some ⟨1, 0, 0⟩ ∧
    vectorAt (positionsOf readDecimal ((fileLines twoSpacesObj).take 5)) (3 - 1)
      = some ⟨0, 1, 0⟩ ∧
    ∃ (s : CSolid ℚ) (heap' : Heap (CPrimTriangle ℚ Sh)) (tri : CPrimTriangle ℚ Sh),
      CSolid.fromFile readDecimal sh (some twoSpacesObj) heap = Outcome.done (s, heap') ∧
      (s.m_vpPrims[writtenCountFaces ((fileLines twoSpacesObj).take 5)]?).bind
        (fun h => heap'[h]?) = some tri ∧
      tri.b = ⟨0, 0, 0⟩ ∧ tri.c = ⟨1, 0, 0⟩ := by
  have h2 := fromFile_fiveLines_face sh heap twoSpacesObj "f 1/1/1  2/1/1 3/1/1".toList
    ⟨0, 0, 1⟩ ⟨0, 0, 0⟩ ⟨0, 0, 0⟩
    (⟨sh, ⟨0, 0, 0⟩, ⟨0, 0, 0⟩, ⟨1, 0, 0⟩, ⟨0, 1⟩, ⟨0, 1⟩, ⟨0, 1⟩,
      ⟨0, 0, 1⟩, ⟨0, 0, 1⟩, ⟨0, 0, 1⟩⟩)
    fileLines_twoSpacesObj (by decide) (by decide)
    (by simp [makeTriangle, vectorAt])
  have hk : writtenCountFaces ((fileLines twoSpacesObj).take 5) = 0 := by decide
  have hpos : positionsOf readDecimal ((fileLines twoSpacesObj).take 5)
      = [⟨0, 0, 0⟩, ⟨1, 0, 0⟩, ⟨0, 1, 0⟩] := by
    rw [fileLines_twoSpacesObj]
    exact positionsOf_fiveLines
  refine ⟨by decide, by decide, by decide, ?_, ?_, ⟨⟨0, 0, 0⟩, [heap.length]⟩,
    heap ++ [⟨sh, ⟨0, 0, 0⟩, ⟨0, 0, 0⟩, ⟨1, 0, 0⟩, ⟨0, 1⟩, ⟨0, 1⟩, ⟨0, 1⟩,
      ⟨0, 0, 1⟩, ⟨0, 0, 1⟩, ⟨0, 0, 1⟩⟩],
    ⟨sh, ⟨0, 0, 0⟩, ⟨0, 0, 0⟩, ⟨1, 0, 0⟩, ⟨0, 1⟩, ⟨0, 1⟩, ⟨0, 1⟩,
      ⟨0, 0, 1⟩, ⟨0, 0, 1⟩, ⟨0, 0, 1⟩⟩, h2, ?_, rfl, rfl⟩
  · rw [hpos]
    simp [vectorAt]
  · rw [hpos]
    simp [vectorAt]
  · rw [hk]
    simp

/-- Claim C2 does not hold of the constructor. The files `tabAfterFObj` and
`spacesAfterFObj` are well-formed as written and have one `f` directive each, a line
whose leading token is `f`. On the first, where a tab follows the `f`, the constructor
returns a solid with no primitive: it takes `f<TAB>1/1/1` for the leading token. On
the second, where two spaces follow the `f`, the run of the constructor is undefined:
the first group it cuts is empty, and it reads `v`, `t`, `n` unassigned. -/
theorem C2_white_space_after_f_loses_the_face (sh : Sh) (heap : Heap (CPrimTriangle ℚ Sh)) :
    WrittenWellFormed tabAfterFObj ∧
    writtenCountFaces (fileLines tabAfterFObj) = 1 ∧
    (∃ (s : CSolid ℚ) (heap' : Heap (CPrimTriangle ℚ Sh)),
      CSolid.fromFile readDecimal sh (some tabAfterFObj) heap = Outcome.done (s, heap') ∧
      s.getPrims.length = 0) ∧
    WrittenWellFormed spacesAfterFObj ∧
    writtenCountFaces (fileLines spacesAfterFObj) = 1 ∧
    CSolid.fromFile readDecimal sh (some spacesAfterFObj) heap = Outcome.undefined := by
  refine ⟨by decide, by decide, ⟨CSolid.default, heap, ?_, rfl⟩, by decide, by decide, ?_⟩
  · rw [fromFile_eq, fileLines_tabAfterFObj, parseLines_append, parseLines_fiveLines]
    simp only [Option.some_bind, parseLines]
    rw [processLine_other _ _ _ _ (by decide) (by decide) (by decide) (by decide)]
    rfl
  · rw [fromFile_eq, fileLines_spacesAfterFObj, parseLines_append, parseLines_fiveLines]
    simp only [Option.some_bind, parseLines]
    rw [processLine_f _ _ _ _ (by decide)]
    have hfi : faceIndices (leadingToken "f  1/1/1 2/1/1 3/1/1".toList).1
        (leadingToken "f  1/1/1 2/1/1 3/1/1".toList).2 = none := by decide
    rw [hfi]
    rfl

/-! ## Bounds of the lookups -/

section c14
variable [Zero F] [One F] [Sub F] (numGet : List Char → Option F × List Char) (sh : Sh)

end c14

theorem sscanf_inherit (line : List Char) (v0 t0 n0 : Int) :
    sscanf line (some v0) (some t0) (some n0) =
      (sscanf line none none none).map
        (fun r => (some (r.1.getD v0), some (r.2.1.getD t0), some (r.2.2.getD n0))) := by
  unfold sscanf
  rcases scanInt (line.takeWhile fun c => c ≠ '\x00') with _ | ⟨a, r1⟩
  · rfl
  · simp only []
    by_cases ha : inIntRange a = true
    · simp only [ha, if_true]
      rcases r1 with _ | ⟨c1, r2⟩
      · rfl
      · simp only []
        by_cases hc1 : c1 = '/'
        · simp only [hc1, if_true]
          rcases scanInt r2 with _ | ⟨b, r3⟩
          · rfl
          · simp only []
            by_cases hb : inIntRange b = true
            · simp only [hb, if_true]
              rcases r3 with _ | ⟨c2, r4⟩
              · rfl
              · simp only []
                by_cases hc2 : c2 = '/'
                · simp only [hc2, if_true]
                  rcases scanInt r4 with _ | ⟨c, r5⟩
                  · rfl
                  · simp only []
                    by_cases hc : inIntRange c = true
                    · simp [hc]
                    · simp [hc]
                · simp [hc2]
            · simp [hb]
        · simp [hc1]
    · simp [ha]

theorem readGroup_inherit (ss : IStream) (line : List Char) (v0 t0 n0 : Int)
    (a b c : Option Int)
    (h : sscanf (getline ss line ' ').2 none none none = some (a, b, c)) :
    readGroup ss line (some v0) (some t0) (some n0) =
      some ((getline ss line ' ').1, (getline ss line ' ').2,
            a.getD v0, b.getD t0, c.getD n0) := by
  simp [readGroup, sscanf_inherit, h]

theorem readGroup_first (ss : IStream) (line : List Char) (v0 t0 n0 : Int)
    (h : sscanf (getline ss line ' ').2 none none none = some (some v0, some t0, some n0)) :
    readGroup ss line none none none =
      some ((getline ss line ' ').1, (getline ss line ' ').2, v0, t0, n0) := by
  simp [readGroup, h]

theorem faceIndices_of_fields (ss : IStream) (line : List Char) (v0 t0 n0 : Int)
    (a2 b2 c2 a3 b3 c3 : Option Int)
    (h1 : sscanf (faceFields ss line).1 none none none = some (some v0, some t0, some n0))
    (h2 : sscanf (faceFields ss line).2.1 none none none = some (a2, b2, c2))
    (h3 : sscanf (faceFields ss line).2.2 none none none = some (a3, b3, c3)) :
    faceIndices ss line =
      some (⟨v0 - 1, a2.getD v0 - 1, a3.getD (a2.getD v0) - 1⟩,
            ⟨t0 - 1, b2.getD t0 - 1, b3.getD (b2.getD t0) - 1⟩,
            ⟨n0 - 1, c2.getD n0 - 1, c3.getD (c2.getD n0) - 1⟩) := by
  simp only [faceFields] at h1 h2 h3
  simp only [faceIndices, readGroup_first ss line v0 t0 n0 h1,
    readGroup_inherit _ _ v0 t0 n0 a2 b2 c2 h2,
    readGroup_inherit _ _ _ _ _ a3 b3 c3 h3]

section c19
variable [Zero F] [One F] [Sub F] (numGet : List Char → Option F × List Char) (sh : Sh)

/-- Claim C19: when the first group of an `f` line is read completely as `v0/t0/n0` and
`sscanf` reads from the second and third text the components `a2, b2, c2` and
`a3, b3, c3` (`none` for a component it does not reach), every component not read has
the value of the same component of the group before; the line is treated as any other
`f` line, its triangle being appended whenever the nine lookups are in range; and the
texts `2`, `2/1`, `2//1` and the empty text leave two, one, two and three components
unread. -/
theorem C19_unparsed_components_are_inherited (st : ParseState F Sh) (l : List Char)
    (v0 t0 n0 : Int) (a2 b2 c2 a3 b3 c3 : Option Int)
    (hf : directive l = ['f'])
    (h1 : sscanf (faceFields (leadingToken l).1 (leadingToken l).2).1 none none none
      = some (some v0, some t0, some n0))
    (h2 : sscanf (faceFields (leadingToken l).1 (leadingToken l).2).2.1 none none none
      = some (a2, b2, c2))
    (h3 : sscanf (faceFields (leadingToken l).1 (leadingToken l).2).2.2 none none none
      = some (a3, b3, c3)) :
    faceIndices (leadingToken l).1 (leadingToken l).2 =
      some (⟨v0 - 1, a2.getD v0 - 1, a3.getD (a2.getD v0) - 1⟩,
            ⟨t0 - 1, b2.getD t0 - 1, b3.getD (b2.getD t0) - 1⟩,
            ⟨n0 - 1, c2.getD n0 - 1, c3.getD (c2.getD n0) - 1⟩) ∧
    processLine numGet sh st l =
      (makeTriangle sh st ⟨v0 - 1, a2.getD v0 - 1, a3.getD (a2.getD v0) - 1⟩
          ⟨t0 - 1, b2.getD t0 - 1, b3.getD (b2.getD t0) - 1⟩
          ⟨n0 - 1, c2.getD n0 - 1, c3.getD (c2.getD n0) - 1⟩).map
        (fun tri => { st with solid := st.solid.add st.heap.length, heap := st.heap ++ [tri] }) ∧
    (indexValid st.vVertexes.length ⟨v0 - 1, a2.getD v0 - 1, a3.getD (a2.getD v0) - 1⟩ = true →
      indexValid st.vTextures.length ⟨t0 - 1, b2.getD t0 - 1, b3.getD (b2.getD t0) - 1⟩ = true →
      indexValid st.vNormals.length ⟨n0 - 1, c2.getD n0 - 1, c3.getD (c2.getD n0) - 1⟩ = true →
      ∃ tri : CPrimTriangle F Sh,
        processLine numGet sh st l =
          some { st with solid := st.solid.add st.heap.length, heap := st.heap ++ [tri] }) ∧
    sscanf "2".toList none none none = some (some 2, none, none) ∧
    sscanf "2/1".toList none none none = some (some 2, some 1, none) ∧
    sscanf "2//1".toList none none none = some (some 2, none, none) ∧
    sscanf [] none none none = some (none, none, none) := by
  have hidx := faceIndices_of_fields _ _ v0 t0 n0 a2 b2 c2 a3 b3 c3 h1 h2 h3
  have hproc : processLine numGet sh st l =
      (makeTriangle sh st ⟨v0 - 1, a2.getD v0 - 1, a3.getD (a2.getD v0) - 1⟩
          ⟨t0 - 1, b2.getD t0 - 1, b3.getD (b2.getD t0) - 1⟩
          ⟨n0 - 1, c2.getD n0 - 1, c3.getD (c2.getD n0) - 1⟩).map
        (fun tri => { st with solid := st.solid.add st.heap.length, heap := st.heap ++ [tri] }) := by
    rw [processLine_f numGet sh st l hf, hidx]
    rfl
  refine ⟨hidx, hproc, ?_, by decide, by decide, by decide, by decide⟩
  intro hV hT hN
  obtain ⟨tri, htri⟩ := makeTriangle_isSome sh st _ _ _ hV hT hN
  exact ⟨tri, by rw [hproc, htri]; rfl⟩

/-- Claim C19 at a concrete input: in the line `f 1/1/1 2 3/1` the second group takes
its texture and normal numbers, and the third its normal number, from the group
before. -/
theorem C19_witness :
    faceIndices (leadingToken "f 1/1/1 2 3/1".toList).1 (leadingToken "f 1/1/1 2 3/1".toList).2
      = some (⟨0, 1, 2⟩, ⟨0, 0, 0⟩, ⟨0, 0, 0⟩) :=
  (C19_unparsed_components_are_inherited readDecimal (7 : Nat) (ParseState.init [])
    "f 1/1/1 2 3/1".toList 1 1 1 (some 2) none none (some 3) (some 1) none
    (by decide) (by decide) (by decide) (by decide)).1

end c19

end EydenTracer
